import Mathlib

/-!
Shallow embedding of the computational core of the COP290 Rust spreadsheet
(src/types.rs, src/utils.rs, src/cell.rs, src/dependencies.rs, src/sheet.rs).

Modelling conventions:
* `i32` values are modelled as `Int`; none of the verified claims concerns
  integer overflow, so no wrap-around is applied.  Rust division `/` on `i32`
  (truncation toward zero) is modelled by `Int.div`.
* Rust `String`/`&str` values are modelled as `List Char`.
* `HashMap<(i32,i32), CellDependencies>` is modelled as an association list
  with unique keys; `insert` replaces in place or appends, `remove` filters.
  Iteration order of a Rust `HashMap` is unspecified; the association-list
  order is one deterministic refinement of it.
* `HashSet<(i32,i32)>` is modelled as a duplicate-free list.
* The two unbounded loops (DFS of the cycle probe, BFS / Kahn queue of the
  recalculation engine) are modelled with an explicit fuel that is large
  enough for every input actually reachable by the claims' witnesses.
* `f64` arithmetic in `calculate_range_function` is modelled exactly over
  `ℚ`; on the integer inputs of the claims every intermediate IEEE double
  operation is exact, and `sqrt().round()` is modelled as the rounding of
  the exact square root (computed with `Nat.sqrt`), which agrees with the
  IEEE result whenever the exact root is not within one ulp of a
  half-integer.
* `SLEEP`'s blocking side effect (thread::sleep) has no state effect; the
  model just returns the duration, as the Rust code does.
-/

namespace Spreadsheet

abbrev Coord := Int × Int

/-- types.rs `DependencyType`. -/
inductive DependencyType where
  | Single (row col : Int)
  | Range (start_row start_col end_row end_col : Int)
deriving DecidableEq

/-- `CellDependencies` (per-cell entry of the dependency graph). -/
structure CellDependencies where
  dependencies : List DependencyType
  dependents : List DependencyType
deriving DecidableEq

/-- types.rs `Cell` (presentation bits included; the unused per-cell
`dependencies`/`dependents` vectors of the stale `types.rs` are dropped, the
code only ever uses the sheet-level `dependency_graph`). -/
structure Cell where
  value : Int
  formula : Option (List Char)
  is_formula : Bool
  is_error : Bool
  has_circular : Bool
  is_bold : Bool
  is_italic : Bool
  is_underline : Bool
deriving DecidableEq

/-- `Cell::new()`. -/
def Cell.new : Cell :=
  { value := 0, formula := none, is_formula := false, is_error := false,
    has_circular := false, is_bold := false, is_italic := false,
    is_underline := false }

abbrev DepGraph := List (Coord × CellDependencies)

/-- sheet.rs `SheetState` (undo/redo snapshot: grid + dependency graph). -/
structure SheetState where
  cells : List (List Cell)
  dependency_graph : DepGraph
deriving DecidableEq

/-- `Sheet` (fields actually read or written by the modelled core:
view/scroll and command-history fields are never touched by the operations
below and are omitted). -/
structure Sheet where
  cells : List (List Cell)
  rows : Int
  cols : Int
  circular_dependency_detected : Bool
  extension_enabled : Bool
  dependency_graph : DepGraph
  undo_stack : List SheetState
  redo_stack : List SheetState
  max_history_size : Nat
deriving DecidableEq

/-- sheet.rs `create_sheet` (always returns `Some` in Rust; modelled
directly).  `max_history_size` is 10 as in the source. -/
def create_sheet (rows cols : Int) (extension_enabled : Bool) : Sheet :=
  { cells := List.replicate rows.toNat (List.replicate cols.toNat Cell.new),
    rows := rows, cols := cols,
    circular_dependency_detected := false,
    extension_enabled := extension_enabled,
    dependency_graph := [],
    undo_stack := [], redo_stack := [],
    max_history_size := 10 }

/-- `sheet.cells[r][c]` (claims only read it in bounds; out of bounds the
Rust code would panic, the model returns an empty cell). -/
def getCell (s : Sheet) (r c : Int) : Cell :=
  ((s.cells.getD r.toNat []).getD c.toNat Cell.new)

/-- Write one cell of the grid. -/
def setGridCell (g : List (List Cell)) (r c : Int) (cell : Cell) :
    List (List Cell) :=
  g.set r.toNat ((g.getD r.toNat []).set c.toNat cell)

def setCell (s : Sheet) (r c : Int) (cell : Cell) : Sheet :=
  { s with cells := setGridCell s.cells r c cell }

def modifyCell (s : Sheet) (r c : Int) (f : Cell → Cell) : Sheet :=
  setCell s r c (f (getCell s r c))

/-! ### Dependency-graph (HashMap) operations -/

def graphLookup (g : DepGraph) (k : Coord) : Option CellDependencies :=
  (g.find? (fun e => e.1 = k)).map (·.2)

def graphRemove (g : DepGraph) (k : Coord) : DepGraph :=
  g.filter (fun e => ¬ e.1 = k)

/-- `HashMap::insert`: replace in place if the key is present, else add. -/
def graphInsert (g : DepGraph) (k : Coord) (v : CellDependencies) : DepGraph :=
  match g with
  | [] => [(k, v)]
  | e :: rest => if e.1 = k then (k, v) :: rest else e :: graphInsert rest k v

/-- `HashMap::get_mut` followed by a mutation: update the value in place if
the key is present, else leave the map unchanged. -/
def graphModify (g : DepGraph) (k : Coord)
    (f : CellDependencies → CellDependencies) : DepGraph :=
  match g with
  | [] => []
  | e :: rest => if e.1 = k then (k, f e.2) :: rest else e :: graphModify rest k f

/-- `entry(k).or_insert_with(empty)` followed by a mutation. -/
def graphModifyOrInsert (g : DepGraph) (k : Coord)
    (f : CellDependencies → CellDependencies) : DepGraph :=
  match graphLookup g k with
  | some _ => graphModify g k f
  | none => g ++ [(k, f ⟨[], []⟩)]

/-! ### Characters and strings -/

/-- Delimiters of the dependency-token split in cell.rs / dependencies.rs:
`['+', '-', '*', '/', '(', ')', ' ']`. -/
def depDelims : List Char := ['+', '-', '*', '/', '(', ')', ' ']

/-- Rust `str::split(&[delims])`: substrings between delimiter occurrences,
empties included. -/
def splitOnDelims (delims : List Char) : List Char → List (List Char)
  | [] => [[]]
  | c :: rest =>
    if c ∈ delims then [] :: splitOnDelims delims rest
    else
      match splitOnDelims delims rest with
      | [] => [[c]]
      | t :: ts => (c :: t) :: ts

/-- Rust `str::split_once(sep)`. -/
def splitOnceChar (sep : Char) : List Char → Option (List Char × List Char)
  | [] => none
  | c :: rest =>
    if c = sep then some ([], rest)
    else (splitOnceChar sep rest).map (fun p => (c :: p.1, p.2))

/-- Rust `str::trim` (whitespace from both ends). -/
def trimChars (s : List Char) : List Char :=
  ((s.dropWhile Char.isWhitespace).reverse.dropWhile Char.isWhitespace).reverse

/-- Rust `char::to_ascii_uppercase`. -/
def toAsciiUpper (c : Char) : Char :=
  if 'a' ≤ c ∧ c ≤ 'z' then Char.ofNat (c.toNat - 32) else c

/-- Rust `str::to_uppercase` (ASCII relevant here). -/
def upperChars (s : List Char) : List Char := s.map toAsciiUpper

/-- Value of a decimal digit. -/
def digitVal (c : Char) : Nat := c.toNat - '0'.toNat

/-- All-digit string to `Nat` (none if empty or a non-digit occurs). -/
def digitsToNat : List Char → Option Nat
  | [] => none
  | cs => cs.foldl (fun acc c =>
      match acc with
      | none => none
      | some n => if c.isDigit then some (n * 10 + digitVal c) else none)
      (some 0)

/-- Rust `i32::from_str` / `str::parse::<i32>`: optional sign, digits only,
range check. -/
def parseI32 (s : List Char) : Option Int :=
  let core : List Char → Bool → Option Int := fun ds neg =>
    match digitsToNat ds with
    | none => none
    | some n =>
      let v : Int := if neg then -(n : Int) else (n : Int)
      if -2147483648 ≤ v ∧ v ≤ 2147483647 then some v else none
  match s with
  | '+' :: rest => core rest false
  | '-' :: rest => core rest true
  | _ => core s false

/-- `parse::<i32>().unwrap_or(0)`. -/
def parseI32Or0 (s : List Char) : Int := (parseI32 s).getD 0

/-- Little-endian decimal digits (fuel-bounded so that it reduces in the
kernel; `fuel = n + 1` always suffices). -/
def natDigitsRev (fuel n : Nat) : List Char :=
  match fuel with
  | 0 => []
  | fuel + 1 => if n = 0 then [] else Nat.digitChar (n % 10) :: natDigitsRev fuel (n / 10)

/-- Decimal rendering of a natural number (`i32::to_string` body). -/
def natToChars (n : Nat) : List Char :=
  if n = 0 then ['0'] else (natDigitsRev (n + 1) n).reverse

/-- Rust `i32::to_string`. -/
def intToChars (i : Int) : List Char :=
  if i < 0 then '-' :: natToChars i.natAbs else natToChars i.toNat

/-! ### utils.rs parsing -/

/-- utils.rs `decode_column`. -/
def decode_column (col_str : List Char) : Int :=
  (col_str.foldl (fun r c => r * 26 + ((toAsciiUpper c).toNat : Int) - 65 + 1) 0) - 1

/-- utils.rs `parse_cell_reference` (the sheet is only used for its bounds). -/
def parse_cell_reference (s : Sheet) (refStr : List Char) : Option Coord :=
  let r := trimChars refStr
  match r.findIdx? Char.isDigit with
  | none => none
  | some numStart =>
    let colStr := r.take numStart
    let rowStr := r.drop numStart
    if colStr = [] then none
    else
      let col := decode_column colStr
      match parseI32 rowStr with
      | none => none
      | some n =>
        let row := n - 1
        if 0 ≤ row ∧ row < s.rows ∧ 0 ≤ col ∧ col < s.cols then
          some (row, col)
        else none

/-- utils.rs `parse_range`. -/
def parse_range (s : Sheet) (range : List Char) : Option (Int × Int × Int × Int) :=
  match splitOnceChar ':' range with
  | none => none
  | some (st, en) =>
    match parse_cell_reference s st with
    | none => none
    | some (sr, sc) =>
      match parse_cell_reference s en with
      | none => none
      | some (er, ec) =>
        if sr ≤ er ∧ sc ≤ ec then some (sr, sc, er, ec) else none

/-! ### Function names -/

def nSUM : List Char := "SUM".data
def nAVG : List Char := "AVG".data
def nMIN : List Char := "MIN".data
def nMAX : List Char := "MAX".data
def nSTDEV : List Char := "STDEV".data
def nSORTA : List Char := "SORTA".data
def nSORTD : List Char := "SORTD".data
def nAUTOFILL : List Char := "AUTOFILL".data
def nSLEEP : List Char := "SLEEP".data
def nBOLD : List Char := "BOLD".data
def nITALIC : List Char := "ITALIC".data
def nUNDERLINE : List Char := "UNDERLINE".data

/-- Rust `str::strip_suffix(')')`. -/
def stripRParen (s : List Char) : Option (List Char) :=
  if s.getLast? = some ')' then some s.dropLast else none

/-- utils.rs `is_valid_formula`. -/
def is_valid_formula (s : Sheet) (formula0 : List Char) : Bool :=
  let formula := trimChars formula0
  let viaFunc : Option Bool :=
    match splitOnceChar '(' formula with
    | none => none
    | some (fn, args1) =>
      match stripRParen args1 with
      | none => none
      | some args =>
        let f := upperChars (trimChars fn)
        if s.extension_enabled then
          if f = nSUM ∨ f = nAVG ∨ f = nMAX ∨ f = nMIN ∨ f = nSTDEV ∨
             f = nSORTA ∨ f = nSORTD ∨ f = nAUTOFILL then
            some (parse_range s (trimChars args)).isSome
          else if f = nSLEEP then
            some ((parseI32 args).isSome ||
              (parse_cell_reference s (trimChars args)).isSome)
          else if f = nBOLD ∨ f = nITALIC ∨ f = nUNDERLINE then
            some (parse_cell_reference s (trimChars args)).isSome
          else some false
        else
          if f = nSUM ∨ f = nAVG ∨ f = nMAX ∨ f = nMIN ∨ f = nSTDEV then
            some (parse_range s (trimChars args)).isSome
          else if f = nSLEEP then
            some ((parseI32 args).isSome ||
              (parse_cell_reference s (trimChars args)).isSome)
          else some false
  match viaFunc with
  | some b => b
  | none =>
    if formula.contains '+' || formula.contains '-' ||
       formula.contains '*' || formula.contains '/' then
      let parts :=
        ((splitOnDelims ['+', '-', '*', '/'] formula).map trimChars).filter (· ≠ [])
      parts.all (fun p => (parseI32 p).isSome || (parse_cell_reference s p).isSome)
    else
      (parse_cell_reference s formula).isSome || (parseI32 formula).isSome

/-! ### calculate_range_function (exact model of the f64 computation) -/

/-- Exact stand-in for `f64`: an unreduced fraction with positive
denominator.  On the integer-valued inputs of the verified claims every
IEEE double operation performed by `calculate_range_function` is exact, so
exact fraction arithmetic coincides with the Rust computation. -/
structure F64 where
  num : Int
  den : Int
deriving DecidableEq

def fOfInt (i : Int) : F64 := ⟨i, 1⟩

def fAdd (a b : F64) : F64 := ⟨a.num * b.den + b.num * a.den, a.den * b.den⟩

def fSub (a b : F64) : F64 := ⟨a.num * b.den - b.num * a.den, a.den * b.den⟩

def fMul (a b : F64) : F64 := ⟨a.num * b.num, a.den * b.den⟩

def fDiv (a b : F64) : F64 :=
  if 0 ≤ b.num then ⟨a.num * b.den, a.den * b.num⟩
  else ⟨-(a.num * b.den), -(a.den * b.num)⟩

/-- `a ≤ b` for fractions with positive denominators. -/
def fLe (a b : F64) : Bool := a.num * b.den ≤ b.num * a.den

def fMin (a b : F64) : F64 := if fLe a b then a else b

def fMax (a b : F64) : F64 := if fLe a b then b else a

/-- `f64::MAX` is exactly `2^1024 - 2^971`. -/
def f64MAX : F64 := ⟨2 ^ 1024 - 2 ^ 971, 1⟩
def f64MIN : F64 := ⟨-(2 ^ 1024 - 2 ^ 971), 1⟩

/-- Integer square root by fuel-bounded binary search (so that it reduces
in the kernel); `natSqrt n = ⌊√n⌋`. -/
def natSqrtGo : Nat → Nat → Nat → Nat → Nat
  | 0, lo, _, _ => lo
  | fuel + 1, lo, hi, n =>
    if hi ≤ lo then lo
    else
      let mid := (lo + hi + 1) / 2
      if mid * mid ≤ n then natSqrtGo fuel mid hi n
      else natSqrtGo fuel lo (mid - 1) n

def natSqrt (n : Nat) : Nat := natSqrtGo (n + 2) 0 n n

/-- `round(sqrt q)` for `q ≥ 0`, computed exactly:
`round x = ⌊(2x+1)/2⌋` and `⌊sqrt (4q)⌋ = ⌊√(4·num·den)⌋ / den`.
This is the exact-real counterpart of `f64::sqrt().round()` (round half
away from zero; the argument is nonnegative). -/
def roundSqrtF (q : F64) : Int :=
  ((natSqrt (4 * q.num.toNat * q.den.toNat) / q.den.toNat + 1) / 2 : Nat)

/-- The coordinates of the inclusive rectangle, in the source's row-major
iteration order. -/
def rangeCoords (sr sc er ec : Int) : List Coord :=
  ((List.range (er - sr + 1).toNat).map (fun i => sr + (i : Int))).flatMap
    (fun i => ((List.range (ec - sc + 1).toNat).map (fun j => sc + (j : Int))).map
      (fun j => (i, j)))

/-- utils.rs `calculate_range_function` (`Result<f64, ()>` as `Option F64`):
one pass accumulating count/sum/min/max and, for STDEV, Welford's
mean/m2 update. -/
def calculate_range_function (s : Sheet) (function0 range : List Char) :
    Option F64 :=
  match parse_range s range with
  | none => none
  | some (sr, sc, er, ec) =>
    let function := upperChars function0
    let looped := (rangeCoords sr sc er ec).foldl
      (fun (st : Option (Nat × F64 × F64 × F64 × F64 × F64)) (p : Coord) =>
        match st with
        | none => none
        | some (count, sum, minv, maxv, mean, m2) =>
          let cell := getCell s p.1 p.2
          if cell.is_error then none
          else
            let value : F64 := fOfInt cell.value
            let count2 := count + 1
            let sum2 := fAdd sum value
            let minv2 := fMin minv value
            let maxv2 := fMax maxv value
            if function = nSTDEV then
              let delta := fSub value mean
              let mean2 := fAdd mean (fDiv delta (fOfInt (count2 : Int)))
              let delta2 := fSub value mean2
              some (count2, sum2, minv2, maxv2, mean2,
                fAdd m2 (fMul delta delta2))
            else some (count2, sum2, minv2, maxv2, mean, m2))
      (some (0, fOfInt 0, f64MAX, f64MIN, fOfInt 0, fOfInt 0))
    match looped with
    | none => none
    | some (count, sum, minv, maxv, _mean, m2) =>
      if count = 0 then none
      else if function = nSUM then some sum
      else if function = nAVG then some (fDiv sum (fOfInt (count : Int)))
      else if function = nMIN then some minv
      else if function = nMAX then some maxv
      else if function = nSTDEV then
        if count ≤ 1 then some (fOfInt 0)
        else some (fOfInt (roundSqrtF (fDiv m2 (fOfInt (count : Int)))))
      else none

/-! ### evaluate_arithmetic -/

/-- Split at every character satisfying `p`, keeping empty pieces. -/
def splitOnPred (p : Char → Bool) : List Char → List (List Char)
  | [] => [[]]
  | c :: rest =>
    if p c then [] :: splitOnPred p rest
    else
      match splitOnPred p rest with
      | [] => [[c]]
      | t :: ts => (c :: t) :: ts

/-- Rust `str::split_whitespace`: the nonempty pieces between whitespace
runs. -/
def splitWS (s : List Char) : List (List Char) :=
  (splitOnPred Char.isWhitespace s).filter (fun t => ¬ t = [])

/-- The index-based operator/operand loop of `evaluate_arithmetic`
(`i` advancing by 2; a trailing operator without operand is ignored;
unknown operators are skipped; division by zero returns `(0, true)`). -/
def arithLoop : Int → List (List Char) → Int × Bool
  | acc, op :: b :: rest =>
    let bv := parseI32Or0 b
    if op = ['+'] then arithLoop (acc + bv) rest
    else if op = ['-'] then arithLoop (acc - bv) rest
    else if op = ['*'] then arithLoop (acc * bv) rest
    else if op = ['/'] then
      if bv = 0 then (0, true) else arithLoop (Int.tdiv acc bv) rest
    else arithLoop acc rest
  | acc, _ => (acc, false)

/-- utils.rs `evaluate_arithmetic` (the `&mut bool` error flag is returned).
On an empty token list the Rust code would panic indexing `tokens[0]`
(unreachable for validated formulas); the model returns `(0, false)`. -/
def evaluate_arithmetic (expr : List Char) : Int × Bool :=
  match splitWS expr with
  | [] => (0, false)
  | [t] => (parseI32Or0 t, false)
  | t :: rest => arithLoop (parseI32Or0 t) rest

/-! ### evaluate_expression -/

/-- Context test for a unary minus: position 0 or preceded by one of
`+ - * / (`. -/
def negContext : Option Char → Bool
  | none => true
  | some p => p ∈ ['+', '-', '*', '/', '(']

def isOpParenChar (c : Char) : Bool := c ∈ ['+', '-', '*', '/', '(', ')']

/-- The `final_expr` construction loop of `evaluate_expression`
(cell.rs lines 158-207): substitutes cell values, keeps (signed) number
tokens, surrounds operators with spaces, drops everything else; `none`
models the early `(0, true)` returns (error cell / invalid reference).
`prev` is the character before the current position in the original
string.  The fuel is structural so the definition reduces in the kernel;
every iteration consumes at least one character, so `length + 1` fuel
(as passed by `buildArith`) never runs out. -/
def buildArithF (s : Sheet) : Nat → Option Char → List Char →
    Option (List Char)
  | 0, _, _ => none
  | _ + 1, _, [] => some []
  | fuel + 1, prev, c :: rest =>
    if c.isAlpha then
      let tok := c :: rest.takeWhile Char.isAlphanum
      let rest1 := rest.dropWhile Char.isAlphanum
      match parse_cell_reference s tok with
      | some rc =>
        let cell := getCell s rc.1 rc.2
        if cell.is_error then none
        else (buildArithF s fuel (some (tok.getLastD c)) rest1).map
          (fun t => intToChars cell.value ++ t)
      | none => none
    else if c.isDigit then
      let tok := c :: rest.takeWhile Char.isDigit
      let rest1 := rest.dropWhile Char.isDigit
      (buildArithF s fuel (some (tok.getLastD c)) rest1).map (fun t => tok ++ t)
    else if c = '-' && negContext prev then
      let tok := '-' :: rest.takeWhile Char.isDigit
      let rest1 := rest.dropWhile Char.isDigit
      (buildArithF s fuel (some (tok.getLastD c)) rest1).map (fun t => tok ++ t)
    else if isOpParenChar c then
      (buildArithF s fuel (some c) rest).map (fun t => ' ' :: c :: ' ' :: t)
    else buildArithF s fuel (some c) rest

def buildArith (s : Sheet) (expr : List Char) : Option (List Char) :=
  buildArithF s (expr.length + 1) none expr

/-- Rust f64-to-i32 `as` cast: truncation toward zero, saturating. -/
def fTruncToI32 (q : F64) : Int :=
  let t := Int.tdiv q.num q.den
  if t < -2147483648 then -2147483648
  else if t > 2147483647 then 2147483647
  else t

/-- cell.rs `evaluate_expression` (the `sleep` call has no state effect
and is omitted; `_row`/`_col` are unused in the source as well).  The Rust
slice `&a[..a.len()-1]` (drop the closing parenthesis) is modelled with
`dropLast`, which also covers the (unreachable for validated formulas)
empty-argument panic.  The fuel bounds the `SLEEP` recursion depth; every
recursive call strictly shrinks the expression, so `length + 1` fuel (as
passed by `evaluate_expression`) never runs out. -/
def evaluate_expressionF (s : Sheet) : Nat → List Char → Int → Int →
    Int × Bool
  | 0, _, _, _ => (0, true)
  | fuel + 1, expr, row, col =>
    match parseI32 expr with
    | some value => (value, false)
    | none =>
      let headAlpha := match expr with | c :: _ => c.isAlpha | [] => false
      let singleRef : Option (Int × Bool) :=
        if headAlpha && ! (expr.any (fun c => c ∈ ['+', '-', '*', '/', '('])) then
          match parse_cell_reference s expr with
          | some rc =>
            some ((getCell s rc.1 rc.2).value, (getCell s rc.1 rc.2).is_error)
          | none => none
        else none
      match singleRef with
      | some res => res
      | none =>
        let arithFallback : Int × Bool :=
          match buildArith s expr with
          | none => (0, true)
          | some fe => evaluate_arithmetic fe
        match splitOnceChar '(' expr with
        | some fa =>
          let args := fa.2.dropLast
          let function := upperChars (trimChars fa.1)
          if function = nSLEEP then
            match evaluate_expressionF s fuel args row col with
            | (_, true) => (0, true)
            | (duration, false) => (duration, false)
          else if (parse_range s args).isSome then
            match calculate_range_function s function args with
            | some result => (fTruncToI32 result, false)
            | none => (0, true)
          else arithFallback
        | none => arithFallback

def evaluate_expression (s : Sheet) (expr : List Char) (row col : Int) :
    Int × Bool :=
  evaluate_expressionF s (expr.length + 1) expr row col

/-! ### Dependency parsing (cell.rs lines 31-53 / dependencies.rs 88-112) -/

def parseDependencies (s : Sheet) (formula : List Char) : List DependencyType :=
  (splitOnDelims depDelims formula).foldl (fun acc token =>
    if token.contains ':' then
      match parse_range s token with
      | some (sr, sc, er, ec) => acc ++ [DependencyType.Range sr sc er ec]
      | none => acc
    else if (match token with | c :: _ => c.isAlpha | [] => false) then
      match parse_cell_reference s token with
      | some rc => acc ++ [DependencyType.Single rc.1 rc.2]
      | none => acc
    else acc) []

/-! ### The cycle-probe DFS (dependencies.rs `dfs` and the probe loop) -/

def listInsert (l : List Coord) (x : Coord) : List Coord :=
  if x ∈ l then l else x :: l

def listRemove (l : List Coord) (x : Coord) : List Coord :=
  l.filter (fun y => ¬ y = x)

/-- dependencies.rs `dfs`: `path` is the current DFS stack, `visited` the
cross-call set; both are threaded through (they are `&mut` in Rust).  The
`for dep in &cell_deps.dependencies` loop and the corner loop are folds
whose state freezes once the `true` flag is set (Rust returns
immediately; freezing the state yields the same final triple).  `fuel`
bounds the nesting depth and is structural so the definition reduces in
the kernel; the caller passes more than the maximal possible depth, so
exhaustion is unreachable. -/
def dfs (g : DepGraph) (startR startC : Int) :
    Nat → Int → Int → List Coord → List Coord → Bool × List Coord × List Coord
  | 0, _, _, path, visited => (false, path, visited)
  | fuel + 1, currR, currC, path, visited =>
    if (currR, currC) ∈ path then (true, path, visited)
    else if (currR, currC) ∈ visited then (false, path, visited)
    else
      let path1 := listInsert path (currR, currC)
      let deps := match graphLookup g (currR, currC) with
        | some cd => cd.dependencies
        | none => []
      let st := deps.foldl
        (fun (st : Bool × List Coord × List Coord) dep =>
          if st.1 then st
          else
            match dep with
            | DependencyType.Single r c =>
              if r = startR ∧ c = startC then (true, st.2.1, st.2.2)
              else dfs g startR startC fuel r c st.2.1 st.2.2
            | DependencyType.Range sr sc er ec =>
              if sr ≤ startR ∧ startR ≤ er ∧ sc ≤ startC ∧ startC ≤ ec then
                (true, st.2.1, st.2.2)
              else
                [(sr, sc), (sr, ec), (er, sc), (er, ec)].foldl
                  (fun (st2 : Bool × List Coord × List Coord) (p : Coord) =>
                    if st2.1 then st2
                    else dfs g startR startC fuel p.1 p.2 st2.2.1 st2.2.2) st)
        (false, path1, visited)
      match st with
      | (true, p2, v2) => (true, p2, v2)
      | (false, p2, v2) =>
        (false, listRemove p2 (currR, currC), listInsert v2 (currR, currC))

/-- The top-level `for dep in &new_deps` loop of `has_circular_dependency`
(path reset to `{start}` before every DFS call, `visited` threaded across
the whole loop). -/
def probeCorners (g : DepGraph) (startR startC : Int) (fuel : Nat) :
    List Coord → List Coord → Bool × List Coord
  | [], visited => (false, visited)
  | p :: rest, visited =>
    match dfs g startR startC fuel p.1 p.2 [(startR, startC)] visited with
    | (true, _, v2) => (true, v2)
    | (false, _, v2) => probeCorners g startR startC fuel rest v2

def probeLoop (g : DepGraph) (startR startC : Int) (fuel : Nat) :
    List DependencyType → List Coord → Bool
  | [], _ => false
  | DependencyType.Single r c :: rest, visited =>
    if r = startR ∧ c = startC then true
    else
      match dfs g startR startC fuel r c [(startR, startC)] visited with
      | (true, _, _) => true
      | (false, _, v2) => probeLoop g startR startC fuel rest v2
  | DependencyType.Range sr sc er ec :: rest, visited =>
    if sr ≤ startR ∧ startR ≤ er ∧ sc ≤ startC ∧ startC ≤ ec then true
    else
      match probeCorners g startR startC fuel
        [(sr, sc), (sr, ec), (er, sc), (er, ec)] visited with
      | (true, _) => true
      | (false, v2) => probeLoop g startR startC fuel rest v2

/-- The candidate dependencies of the probe (the `if !formula.is_empty()`
wrapper around the token scan). -/
def hcdNewDeps (s : Sheet) (formula : List Char) : List DependencyType :=
  if formula = [] then [] else parseDependencies s formula

/-- The probed graph: the target's dependency list temporarily swapped for
the candidate list, its dependents preserved. -/
def hcdProbeGraph (s : Sheet) (start_row start_col : Int)
    (formula : List Char) : DepGraph :=
  graphInsert (graphRemove s.dependency_graph (start_row, start_col))
    (start_row, start_col)
    { dependencies := hcdNewDeps s formula,
      dependents :=
        match graphLookup s.dependency_graph (start_row, start_col) with
        | some d => d.dependents
        | none => [] }

/-- The boolean result of the probe's DFS loop. -/
def hcdBool (s : Sheet) (start_row start_col : Int) (formula : List Char) :
    Bool :=
  probeLoop (hcdProbeGraph s start_row start_col formula) start_row start_col
    ((hcdProbeGraph s start_row start_col formula).length + 4)
    (hcdNewDeps s formula) []

/-- The unconditional restore of the original dependency list
(dependencies.rs lines 262-273), applied to the probed graph. -/
def hcdRestore (s : Sheet) (start_row start_col : Int) (formula : List Char) :
    DepGraph :=
  match graphLookup s.dependency_graph (start_row, start_col) with
  | some od => graphInsert (hcdProbeGraph s start_row start_col formula)
      (start_row, start_col) ⟨od.dependencies, od.dependents⟩
  | none => graphRemove (hcdProbeGraph s start_row start_col formula)
      (start_row, start_col)

/-- dependencies.rs `has_circular_dependency` (returns the updated sheet
and the Rust return value). -/
def has_circular_dependency (s : Sheet) (start_row start_col : Int)
    (formula : List Char) : Sheet × Bool :=
  if start_row < 0 ∨ start_row ≥ s.rows ∨ start_col < 0 ∨ start_col ≥ s.cols then
    (s, false)
  else
    let has_cycle := hcdBool s start_row start_col formula
    let s2 :=
      if has_cycle then
        { modifyCell
            { s with dependency_graph := hcdProbeGraph s start_row start_col formula }
            start_row start_col
            (fun cell => { cell with has_circular := true }) with
          circular_dependency_detected := true }
      else { s with dependency_graph := hcdProbeGraph s start_row start_col formula }
    ({ s2 with dependency_graph := hcdRestore s start_row start_col formula },
     has_cycle)

/-! ### recalculate_dependents: BFS affected set + Kahn topological sort -/

/-- The whole-graph scan for `Range` dependencies covering the popped
coordinate (dependencies.rs lines 330-349), threading (visited, queue). -/
def bfsRangeScan (g : DepGraph) (row col : Int)
    (st0 : List Coord × List Coord) : List Coord × List Coord :=
  g.foldl (fun st e =>
    e.2.dependencies.foldl (fun st2 dep =>
      match dep with
      | DependencyType.Range sr sc er ec =>
        if sr ≤ row ∧ row ≤ er ∧ sc ≤ col ∧ col ≤ ec then
          (if e.1 ∈ st2.1 then st2 else (e.1 :: st2.1, st2.2 ++ [e.1]))
        else st2
      | DependencyType.Single _ _ => st2) st) st0

/-- The `Single`-dependents pushes of one BFS iteration
(dependencies.rs lines 317-328), threading (visited, queue). -/
def bfsDependentsStep (st0 : List Coord × List Coord)
    (cdOpt : Option CellDependencies) : List Coord × List Coord :=
  match cdOpt with
  | some cd =>
    cd.dependents.foldl (fun (st : List Coord × List Coord) dep =>
      match dep with
      | DependencyType.Single r c =>
        if (r, c) ∈ st.1 then st else ((r, c) :: st.1, st.2 ++ [(r, c)])
      | DependencyType.Range _ _ _ _ => st) st0
  | none => st0

/-- The BFS loop (dependencies.rs lines 314-350): queue front at the head,
`acc` is the `dependents` output list.  The fuel passed by
`recalculate_dependents` exceeds the maximal number of iterations (one per
visited-set insertion plus one), so exhaustion is unreachable. -/
def bfsLoop (g : DepGraph) : Nat → List Coord → List Coord → List Coord →
    List Coord
  | 0, _, _, acc => acc
  | fuel + 1, queue, visited, acc =>
    match queue with
    | [] => acc
    | (row, col) :: qrest =>
      let st1 := bfsDependentsStep (visited, qrest) (graphLookup g (row, col))
      let st2 := bfsRangeScan g row col st1
      bfsLoop g fuel st2.2 st2.1 (acc ++ [(row, col)])

def bfsFuel (g : DepGraph) : Nat :=
  2 + g.length + (g.map (fun e => e.2.dependents.length)).sum

/-! Adjacency / in-degree maps of the topological sort, as association
lists (`HashMap<(i32,i32), Vec<(i32,i32)>>` / `HashMap<(i32,i32), i32>`). -/

def adjLookup (a : List (Coord × List Coord)) (k : Coord) : List Coord :=
  ((a.find? (fun e => e.1 = k)).map (·.2)).getD []

/-- `graph.entry(k).or_insert_with(Vec::new).push(v)`. -/
def adjPush (a : List (Coord × List Coord)) (k : Coord) (v : Coord) :
    List (Coord × List Coord) :=
  match a with
  | [] => [(k, [v])]
  | e :: rest =>
    if e.1 = k then (k, e.2 ++ [v]) :: rest else e :: adjPush rest k v

def degLookup (d : List (Coord × Int)) (k : Coord) : Option Int :=
  ((d.find? (fun e => e.1 = k)).map (·.2))

/-- `in_degree.entry(k).or_insert(0)`. -/
def degEnsure (d : List (Coord × Int)) (k : Coord) : List (Coord × Int) :=
  match degLookup d k with
  | some _ => d
  | none => d ++ [(k, 0)]

/-- `*in_degree.entry(k).or_insert(0) += 1`. -/
def degInc (d : List (Coord × Int)) (k : Coord) : List (Coord × Int) :=
  match d with
  | [] => [(k, 1)]
  | e :: rest =>
    if e.1 = k then (k, e.2 + 1) :: rest else e :: degInc rest k

/-- `*in_degree.get_mut(k).unwrap() = v` (the Kahn decrement; the key is
always present there, absent keys are left untouched). -/
def degSetVal (d : List (Coord × Int)) (k : Coord) (v : Int) :
    List (Coord × Int) :=
  match d with
  | [] => []
  | e :: rest =>
    if e.1 = k then (k, v) :: rest else e :: degSetVal rest k v

/-- Building the restricted graph and in-degrees
(dependencies.rs lines 356-387). -/
def buildTopoMaps (s : Sheet) (dependents : List Coord) :
    List (Coord × List Coord) × List (Coord × Int) :=
  dependents.foldl
    (fun (st : List (Coord × List Coord) × List (Coord × Int)) node =>
      let st0 := (st.1, degEnsure st.2 node)
      match graphLookup s.dependency_graph node with
      | none => st0
      | some cd =>
        cd.dependencies.foldl
          (fun (st2 : List (Coord × List Coord) × List (Coord × Int)) dep =>
            match dep with
            | DependencyType.Single r c =>
              if (r, c) ∈ dependents then
                (adjPush st2.1 (r, c) node, degInc st2.2 node)
              else st2
            | DependencyType.Range sr sc er ec =>
              (rangeCoords sr sc er ec).foldl
                (fun (st3 : List (Coord × List Coord) × List (Coord × Int)) p =>
                  if p ∈ dependents then
                    (adjPush st3.1 p node, degInc st3.2 node)
                  else st3) st2) st0)
    ([], [])

/-- Kahn's queue loop (dependencies.rs lines 398-409). -/
def kahnLoop (adj : List (Coord × List Coord)) :
    Nat → List (Coord × Int) → List Coord → List Coord → List Coord
  | 0, _, _, topo => topo
  | fuel + 1, indeg, queue, topo =>
    match queue with
    | [] => topo
    | node :: qrest =>
      let topo1 := topo ++ [node]
      let st2 := (adjLookup adj node).foldl
        (fun (st : List (Coord × Int) × List Coord) nb =>
          let dg := (degLookup st.1 nb).getD 0 - 1
          let indeg1 := degSetVal st.1 nb dg
          if dg = 0 then (indeg1, st.2 ++ [nb]) else (indeg1, st.2))
        (indeg, qrest)
      kahnLoop adj fuel st2.1 st2.2 topo1

def kahnFuel (dependents : List Coord) (adj : List (Coord × List Coord)) : Nat :=
  dependents.length + (adj.map (fun e => e.2.length)).sum + 1

/-- The recompute pass (dependencies.rs lines 412-421): in topological
order, skip the start cell, re-evaluate stored formulas. -/
def applyRecompute (startR startC : Int) (s : Sheet) (topo : List Coord) :
    Sheet :=
  topo.foldl (fun st (p : Coord) =>
    if p.1 = startR ∧ p.2 = startC then st
    else
      match (getCell st p.1 p.2).formula with
      | some f =>
        let ve := evaluate_expression st f p.1 p.2
        modifyCell st p.1 p.2
          (fun cell => { cell with value := ve.1, is_error := ve.2 })
      | none => st) s

/-- dependencies.rs `recalculate_dependents`. -/
def recalculate_dependents (s : Sheet) (start_row start_col : Int) : Sheet :=
  if start_row < 0 ∨ start_row ≥ s.rows ∨ start_col < 0 ∨ start_col ≥ s.cols then
    s
  else
    let g := s.dependency_graph
    let dependents :=
      bfsLoop g (bfsFuel g) [(start_row, start_col)] [(start_row, start_col)] []
    let maps := buildTopoMaps s dependents
    let queue0 :=
      dependents.filter (fun node => (degLookup maps.2 node).getD 0 = 0)
    let topo := kahnLoop maps.1 (kahnFuel dependents maps.1) maps.2 queue0 []
    applyRecompute start_row start_col s topo

/-- dependencies.rs `reset_circular_dependency_flag`. -/
def reset_circular_dependency_flag (s : Sheet) : Sheet :=
  { s with
    cells := s.cells.map (fun rowL => rowL.map
      (fun cell => { cell with has_circular := false })),
    circular_dependency_detected := false }

/-! ### update_cell -/

/-- One step of removing the updated cell from the dependents of an old
`Single` dependency target (cell.rs lines 68-77; note: unlike
`remove_dependency`, this does not drop entries that become empty). -/
def removeOldDepStep (row col : Int) (g : DepGraph) (dep : DependencyType) :
    DepGraph :=
  match dep with
  | DependencyType.Single r c =>
    graphModify g (r, c) (fun cd =>
      { cd with dependents := cd.dependents.filter (fun d =>
          ¬ d = DependencyType.Single row col) })
  | DependencyType.Range _ _ _ _ => g

/-- One step of adding the updated cell to the dependents of a new `Single`
dependency target (cell.rs lines 85-101). -/
def addNewDepStep (row col : Int) (g : DepGraph) (dep : DependencyType) :
    DepGraph :=
  match dep with
  | DependencyType.Single r c =>
    graphModifyOrInsert g (r, c) (fun cd =>
      { cd with dependents :=
          cd.dependents ++ [DependencyType.Single row col] })
  | DependencyType.Range _ _ _ _ => g

/-- The whole graph rewiring of a successful `update_cell`
(cell.rs lines 64-109). -/
def updateCellGraph (g0 : DepGraph) (row col : Int)
    (new_dependencies : List DependencyType) : DepGraph :=
  let old_cell_deps := graphLookup g0 (row, col)
  let g1 := graphRemove g0 (row, col)
  let g2 := match old_cell_deps with
    | none => g1
    | some od => od.dependencies.foldl (removeOldDepStep row col) g1
  let g3 := new_dependencies.foldl (addNewDepStep row col) g2
  let g4 := graphInsert g3 (row, col)
    { dependencies := new_dependencies,
      dependents :=
        match old_cell_deps with | some od => od.dependents | none => [] }
  if new_dependencies = [] ∧
      (match graphLookup g4 (row, col) with
       | some cd => cd.dependents
       | none => []) = [] then
    graphRemove g4 (row, col)
  else g4

/-- cell.rs `update_cell`. -/
def update_cell (s : Sheet) (row col : Int) (formula : List Char) : Sheet :=
  if row < 0 ∨ row ≥ s.rows ∨ col < 0 ∨ col ≥ s.cols ∨
      is_valid_formula s formula = false then
    s
  else
    match has_circular_dependency s row col formula with
    | (s1, true) =>
      let s2 := modifyCell s1 row col (fun cell =>
        { cell with formula := some formula, is_formula := true,
                    has_circular := true })
      recalculate_dependents s2 row col
    | (s1, false) =>
      let new_dependencies := parseDependencies s1 formula
      let ve := evaluate_expression s1 formula row col
      let s2 := modifyCell s1 row col (fun cell =>
        { cell with formula := some formula, is_formula := true,
                    value := ve.1, is_error := ve.2 })
      let s3 := { s2 with
        dependency_graph :=
          updateCellGraph s2.dependency_graph row col new_dependencies }
      reset_circular_dependency_flag (recalculate_dependents s3 row col)

/-! ### Undo/redo snapshot manager (sheet.rs) -/

/-- sheet.rs `save_state`. -/
def save_state (s : Sheet) : Sheet :=
  if s.extension_enabled = false then s
  else
    let state : SheetState := ⟨s.cells, s.dependency_graph⟩
    let pushed := state :: s.undo_stack
    { s with redo_stack := [],
             undo_stack :=
               if pushed.length > s.max_history_size then pushed.dropLast
               else pushed }

/-- sheet.rs `undo` (returns the updated sheet and the Rust `bool`). -/
def undo (s : Sheet) : Sheet × Bool :=
  if s.extension_enabled = false then (s, false)
  else
    match s.undo_stack with
    | [] => (s, false)
    | prev :: rest =>
      ({ s with cells := prev.cells,
                dependency_graph := prev.dependency_graph,
                undo_stack := rest,
                redo_stack := ⟨s.cells, s.dependency_graph⟩ :: s.redo_stack },
       true)

/-- sheet.rs `redo`. -/
def redo (s : Sheet) : Sheet × Bool :=
  if s.extension_enabled = false then (s, false)
  else
    match s.redo_stack with
    | [] => (s, false)
    | next :: rest =>
      ({ s with cells := next.cells,
                dependency_graph := next.dependency_graph,
                redo_stack := rest,
                undo_stack := ⟨s.cells, s.dependency_graph⟩ :: s.undo_stack },
       true)

/-! ### Edits as state changes (for the undo/redo claim) -/

/-- An edit of the computational state: it overwrites the grid and the
dependency graph (the two components captured by a snapshot), exactly the
fields `update_cell` and the other mutating operations touch. -/
def applyEdit (s : Sheet) (e : SheetState) : Sheet :=
  { s with cells := e.cells, dependency_graph := e.dependency_graph }

/-- One history step of the command loop: `save_state` then the edit. -/
def editStep (s : Sheet) (e : SheetState) : Sheet := applyEdit (save_state s) e

def undoF (s : Sheet) : Sheet := (undo s).1

def redoF (s : Sheet) : Sheet := (redo s).1

/-! ### Concrete scenarios used by the claim analysis -/

/-- A1 = "B1" on a fresh 1x2 sheet (commits the edge A1 -> B1). -/
def c1Step1 : Sheet := update_cell (create_sheet 1 2 false) 0 0 ("B1".data)

/-- then B1 = "A1": detected circular, formula stored, edges not
committed. -/
def c1Step2 : Sheet := update_cell c1Step1 0 1 ("A1".data)

/-- then A1 = "5": succeeds, removes A1's dependency on B1, clears all
`has_circular` flags. -/
def c1Step3 : Sheet := update_cell c1Step2 0 0 ("5".data)

/-- A1 = "B1+C1" on a fresh 1x3 sheet. -/
def c5Step1 : Sheet := update_cell (create_sheet 1 3 false) 0 0 ("B1+C1".data)

/-- then A1 = "B1+1": replaces the formula; B1 is re-referenced, C1 is
dropped. -/
def c5Step2 : Sheet := update_cell c5Step1 0 0 ("B1+1".data)

/-- Grid holding 1,2,3,4 in A1,B1,A2,B2 (the fixture of the STDEV claim,
set up the way tests.rs sets cell values directly). -/
def c8Sheet : Sheet :=
  setCell (setCell (setCell (setCell (create_sheet 2 2 false) 0 0
    { Cell.new with value := 1 }) 0 1 { Cell.new with value := 2 })
    1 0 { Cell.new with value := 3 }) 1 1 { Cell.new with value := 4 }

/-- Renders an initial operand token followed by operator/operand pairs as a
whitespace-separated expression string, the shape `evaluate_expression` hands
to `evaluate_arithmetic`. -/
def renderToks : List Char → List (Char × List Char) → List Char
  | t0, [] => t0
  | t0, (op, b) :: rest => t0 ++ ' ' :: op :: ' ' :: renderToks b rest

/-- Spec-side definition, written from the specification's words: a strict
left-to-right fold over operator/operand pairs with no operator precedence
(division by zero aborts with the error flag). To be compared with the
source-derived `evaluate_arithmetic`. -/
def specLeftToRight : Int → List (Char × Int) → Int × Bool
  | acc, [] => (acc, false)
  | acc, (op, b) :: rest =>
    if op = '+' then specLeftToRight (acc + b) rest
    else if op = '-' then specLeftToRight (acc - b) rest
    else if op = '*' then specLeftToRight (acc * b) rest
    else if b = 0 then (0, true)
    else specLeftToRight (Int.tdiv acc b) rest

/-! ## Lemmas about the graph operations -/

theorem graphLookup_nil (k : Coord) : graphLookup [] k = none := rfl

theorem graphLookup_cons (e : Coord × CellDependencies) (g : DepGraph) (k : Coord) :
    graphLookup (e :: g) k = if e.1 = k then some e.2 else graphLookup g k := by
  by_cases h : e.1 = k
  · simp [graphLookup, List.find?, h]
  · simp [graphLookup, List.find?, h]

theorem graphInsert_cons_eq (e : Coord × CellDependencies) (g : DepGraph)
    (k : Coord) (v : CellDependencies) (h : e.1 = k) :
    graphInsert (e :: g) k v = (k, v) :: g := by
  simp [graphInsert, h]

theorem graphInsert_cons_ne (e : Coord × CellDependencies) (g : DepGraph)
    (k : Coord) (v : CellDependencies) (h : ¬ e.1 = k) :
    graphInsert (e :: g) k v = e :: graphInsert g k v := by
  simp [graphInsert, h]

theorem graphLookup_graphInsert (g : DepGraph) (k : Coord) (v : CellDependencies)
    (q : Coord) :
    graphLookup (graphInsert g k v) q =
      if q = k then some v else graphLookup g q := by
  induction g with
  | nil =>
    show graphLookup [(k, v)] q = _
    rw [graphLookup_cons]
    by_cases hq : q = k
    · simp [hq]
    · have hkq : ¬ (k = q) := fun h => hq h.symm
      simp [hq, hkq, graphLookup_nil]
  | cons e rest ih =>
    by_cases hek : e.1 = k
    · rw [graphInsert_cons_eq e rest k v hek, graphLookup_cons, graphLookup_cons]
      by_cases hq : q = k
      · simp [hq]
      · have hkq : ¬ (k = q) := fun h => hq h.symm
        have heq : ¬ (e.1 = q) := by rw [hek]; exact hkq
        simp [hq, hkq, heq]
    · rw [graphInsert_cons_ne e rest k v hek, graphLookup_cons, ih,
        graphLookup_cons]
      by_cases heq : e.1 = q
      · have hqk : ¬ (q = k) := fun h => hek (heq.trans h)
        simp [heq, hqk]
      · simp [heq]

theorem graphRemove_cons_eq (e : Coord × CellDependencies) (g : DepGraph)
    (k : Coord) (h : e.1 = k) :
    graphRemove (e :: g) k = graphRemove g k := by
  simp [graphRemove, List.filter_cons, h]

theorem graphRemove_cons_ne (e : Coord × CellDependencies) (g : DepGraph)
    (k : Coord) (h : ¬ e.1 = k) :
    graphRemove (e :: g) k = e :: graphRemove g k := by
  simp [graphRemove, List.filter_cons, h]

theorem graphLookup_graphRemove (g : DepGraph) (k q : Coord) :
    graphLookup (graphRemove g k) q =
      if q = k then none else graphLookup g q := by
  induction g with
  | nil => simp [graphRemove, graphLookup_nil]
  | cons e rest ih =>
    by_cases hek : e.1 = k
    · rw [graphRemove_cons_eq e rest k hek, ih, graphLookup_cons]
      by_cases hq : q = k
      · simp [hq]
      · have heq : ¬ (e.1 = q) := by
          rw [hek]; exact fun h => hq h.symm
        simp [hq, heq]
    · rw [graphRemove_cons_ne e rest k hek, graphLookup_cons, ih,
        graphLookup_cons]
      by_cases heq : e.1 = q
      · have hqk : ¬ (q = k) := fun h => hek (heq.trans h)
        simp [heq, hqk]
      · simp [heq]

theorem graphModify_cons_eq (e : Coord × CellDependencies) (g : DepGraph)
    (k : Coord) (f : CellDependencies → CellDependencies) (h : e.1 = k) :
    graphModify (e :: g) k f = (k, f e.2) :: g := by
  simp [graphModify, h]

theorem graphModify_cons_ne (e : Coord × CellDependencies) (g : DepGraph)
    (k : Coord) (f : CellDependencies → CellDependencies) (h : ¬ e.1 = k) :
    graphModify (e :: g) k f = e :: graphModify g k f := by
  simp [graphModify, h]

theorem graphLookup_graphModify (g : DepGraph) (k : Coord)
    (f : CellDependencies → CellDependencies) (q : Coord) :
    graphLookup (graphModify g k f) q =
      if q = k then (graphLookup g k).map f else graphLookup g q := by
  induction g with
  | nil => simp [graphModify, graphLookup_nil]
  | cons e rest ih =>
    by_cases hek : e.1 = k
    · rw [graphModify_cons_eq e rest k f hek, graphLookup_cons, graphLookup_cons,
        graphLookup_cons]
      by_cases hq : q = k
      · subst hq
        simp [hek]
      · have hkq : ¬ (k = q) := fun h => hq h.symm
        have heq : ¬ (e.1 = q) := by rw [hek]; exact hkq
        simp [hq, hkq, heq]
    · rw [graphModify_cons_ne e rest k f hek, graphLookup_cons, ih,
        graphLookup_cons, graphLookup_cons]
      by_cases heq : e.1 = q
      · have hqk : ¬ (q = k) := fun h => hek (heq.trans h)
        simp [heq, hqk]
      · simp [heq, hek]

theorem graphLookup_graphModifyOrInsert (g : DepGraph) (k : Coord)
    (f : CellDependencies → CellDependencies) (q : Coord) :
    graphLookup (graphModifyOrInsert g k f) q =
      if q = k then some (f ((graphLookup g k).getD ⟨[], []⟩))
      else graphLookup g q := by
  unfold graphModifyOrInsert
  cases hg : graphLookup g k with
  | some v =>
    rw [graphLookup_graphModify]
    by_cases hq : q = k <;> simp [hq, hg]
  | none =>
    induction g with
    | nil =>
      show graphLookup [(k, f ⟨[], []⟩)] q = _
      rw [graphLookup_cons]
      by_cases hq : q = k
      · simp [hq]
      · have hkq : ¬ (k = q) := fun h => hq h.symm
        simp [hq, hkq, graphLookup_nil]
    | cons e rest ih =>
      rw [graphLookup_cons] at hg
      by_cases hek : e.1 = k
      · simp [hek] at hg
      · simp only [hek, if_false] at hg
        simp only [List.cons_append]
        rw [graphLookup_cons, graphLookup_cons]
        by_cases heq : e.1 = q
        · have hqk : ¬ (q = k) := fun h => hek (heq.trans h)
          simp [heq, hqk]
        · simp only [heq, if_false]
          exact ih hg

/-! ## Lemmas about grid access -/

/-- Grid-shape predicate on the raw grid. -/
def gridWFg (g : List (List Cell)) (rows cols : Int) : Prop :=
  g.length = rows.toNat ∧ ∀ rowL ∈ g, rowL.length = cols.toNat

/-- The grid has the shape announced by `rows`/`cols` (true of every state
reachable from `create_sheet`; the Rust `Vec<Vec<Cell>>` always has it). -/
def gridWF (s : Sheet) : Prop := gridWFg s.cells s.rows s.cols

instance (g : List (List Cell)) (rows cols : Int) :
    Decidable (gridWFg g rows cols) := by
  unfold gridWFg; infer_instance

instance (s : Sheet) : Decidable (gridWF s) := by
  unfold gridWF; infer_instance

theorem listGetD_set_ne {α : Type} (l : List α) (m n : Nat) (a d : α)
    (h : ¬ m = n) : (l.set m a).getD n d = l.getD n d := by
  rw [List.getD_eq_getElem?_getD, List.getD_eq_getElem?_getD,
    List.getElem?_set_ne h]

theorem listGetD_set_self {α : Type} (l : List α) (m : Nat) (a d : α)
    (h : m < l.length) : (l.set m a).getD m d = a := by
  rw [List.getD_eq_getElem?_getD, List.getElem?_set_self h]
  rfl

theorem getCell_setCell_ne (s : Sheet) (r c i j : Int) (cell : Cell)
    (h : ¬ (i.toNat = r.toNat ∧ j.toNat = c.toNat)) :
    getCell (setCell s r c cell) i j = getCell s i j := by
  unfold getCell setCell setGridCell
  by_cases hr : i.toNat = r.toNat
  · have hj : ¬ j.toNat = c.toNat := fun hj => h ⟨hr, hj⟩
    show ((s.cells.set r.toNat _).getD i.toNat []).getD j.toNat Cell.new = _
    rw [← hr]
    by_cases hlen : i.toNat < s.cells.length
    · rw [listGetD_set_self _ _ _ _ hlen]
      rw [listGetD_set_ne _ _ _ _ _ (fun hh => hj hh.symm)]
    · rw [List.set_eq_of_length_le (Nat.le_of_not_lt hlen)]
  · show ((s.cells.set r.toNat _).getD i.toNat []).getD j.toNat Cell.new = _
    rw [listGetD_set_ne _ _ _ _ _ (fun hh => hr hh.symm)]

theorem getCell_setCell_self (s : Sheet) (r c : Int) (cell : Cell)
    (hr : r.toNat < s.cells.length)
    (hc : c.toNat < (s.cells.getD r.toNat []).length) :
    getCell (setCell s r c cell) r c = cell := by
  unfold getCell setCell setGridCell
  show ((s.cells.set r.toNat _).getD r.toNat []).getD c.toNat Cell.new = _
  rw [listGetD_set_self _ _ _ _ hr, listGetD_set_self _ _ _ _ hc]

theorem getCell_modifyCell_self (s : Sheet) (r c : Int) (f : Cell → Cell)
    (hr : r.toNat < s.cells.length)
    (hc : c.toNat < (s.cells.getD r.toNat []).length) :
    getCell (modifyCell s r c f) r c = f (getCell s r c) :=
  getCell_setCell_self s r c _ hr hc

theorem getCell_modifyCell_ne (s : Sheet) (r c i j : Int) (f : Cell → Cell)
    (h : ¬ (i.toNat = r.toNat ∧ j.toNat = c.toNat)) :
    getCell (modifyCell s r c f) i j = getCell s i j :=
  getCell_setCell_ne s r c i j _ h

/-- Either a `modifyCell` write lands on the queried cell (transforming it
by `f`) or the queried cell is untouched. -/
theorem getCell_modifyCell_cases (s : Sheet) (r c i j : Int) (f : Cell → Cell) :
    getCell (modifyCell s r c f) i j = f (getCell s i j) ∨
    getCell (modifyCell s r c f) i j = getCell s i j := by
  by_cases h : i.toNat = r.toNat ∧ j.toNat = c.toNat
  · by_cases hr : r.toNat < s.cells.length
    · by_cases hc : c.toNat < (s.cells.getD r.toNat []).length
      · left
        have hg : getCell s i j = getCell s r c := by
          unfold getCell; rw [h.1, h.2]
        have hg2 : getCell (modifyCell s r c f) i j =
            getCell (modifyCell s r c f) r c := by
          unfold getCell; rw [h.1, h.2]
        rw [hg, hg2, getCell_modifyCell_self s r c f hr hc]
      · right
        unfold modifyCell setCell setGridCell getCell
        show ((s.cells.set r.toNat _).getD i.toNat []).getD j.toNat Cell.new = _
        by_cases hir : i.toNat = r.toNat
        · rw [← hir] at hc ⊢
          by_cases hlen : i.toNat < s.cells.length
          · rw [listGetD_set_self _ _ _ _ hlen]
            rw [List.set_eq_of_length_le (Nat.le_of_not_lt hc)]
          · rw [List.set_eq_of_length_le (Nat.le_of_not_lt hlen)]
        · rw [listGetD_set_ne _ _ _ _ _ (fun hh => hir hh.symm)]
    · right
      unfold modifyCell setCell setGridCell getCell
      show ((s.cells.set r.toNat _).getD i.toNat []).getD j.toNat Cell.new = _
      rw [List.set_eq_of_length_le (Nat.le_of_not_lt hr)]
  · right
    exact getCell_modifyCell_ne s r c i j f h

theorem modifyCell_scalar (s : Sheet) (r c : Int) (f : Cell → Cell) :
    (modifyCell s r c f).rows = s.rows ∧
    (modifyCell s r c f).cols = s.cols ∧
    (modifyCell s r c f).circular_dependency_detected =
      s.circular_dependency_detected ∧
    (modifyCell s r c f).extension_enabled = s.extension_enabled ∧
    (modifyCell s r c f).dependency_graph = s.dependency_graph ∧
    (modifyCell s r c f).undo_stack = s.undo_stack ∧
    (modifyCell s r c f).redo_stack = s.redo_stack ∧
    (modifyCell s r c f).max_history_size = s.max_history_size := by
  unfold modifyCell setCell
  exact ⟨rfl, rfl, rfl, rfl, rfl, rfl, rfl, rfl⟩

/-! ## Lemmas about the cycle probe -/

theorem hcd_guard (s : Sheet) (r c : Int) (f : List Char)
    (h : r < 0 ∨ r ≥ s.rows ∨ c < 0 ∨ c ≥ s.cols) :
    has_circular_dependency s r c f = (s, false) := by
  unfold has_circular_dependency
  rw [if_pos h]

theorem hcd_eq_true (s : Sheet) (r c : Int) (f : List Char)
    (h : ¬ (r < 0 ∨ r ≥ s.rows ∨ c < 0 ∨ c ≥ s.cols))
    (hb : hcdBool s r c f = true) :
    has_circular_dependency s r c f =
      ({ modifyCell { s with dependency_graph := hcdProbeGraph s r c f } r c
           (fun cell => { cell with has_circular := true }) with
         circular_dependency_detected := true,
         dependency_graph := hcdRestore s r c f }, true) := by
  unfold has_circular_dependency
  rw [if_neg h]
  simp only [hb, if_true]

theorem hcd_eq_false (s : Sheet) (r c : Int) (f : List Char)
    (h : ¬ (r < 0 ∨ r ≥ s.rows ∨ c < 0 ∨ c ≥ s.cols))
    (hb : hcdBool s r c f = false) :
    has_circular_dependency s r c f =
      ({ s with dependency_graph := hcdRestore s r c f }, false) := by
  unfold has_circular_dependency
  rw [if_neg h]
  simp only [hb, if_false]
  rfl

theorem hcd_snd (s : Sheet) (r c : Int) (f : List Char)
    (h : ¬ (r < 0 ∨ r ≥ s.rows ∨ c < 0 ∨ c ≥ s.cols)) :
    (has_circular_dependency s r c f).2 = hcdBool s r c f := by
  cases hb : hcdBool s r c f
  · rw [hcd_eq_false s r c f h hb]
  · rw [hcd_eq_true s r c f h hb]

theorem hcdProbeGraph_lookup_ne (s : Sheet) (r c : Int) (f : List Char)
    (k : Coord) (hk : ¬ k = (r, c)) :
    graphLookup (hcdProbeGraph s r c f) k = graphLookup s.dependency_graph k := by
  unfold hcdProbeGraph
  rw [graphLookup_graphInsert, if_neg hk, graphLookup_graphRemove, if_neg hk]

/-- The probe leaves the dependency graph extensionally unchanged. -/
theorem hcdRestore_lookup (s : Sheet) (r c : Int) (f : List Char) (k : Coord) :
    graphLookup (hcdRestore s r c f) k = graphLookup s.dependency_graph k := by
  unfold hcdRestore
  cases hod : graphLookup s.dependency_graph (r, c) with
  | some od =>
    rw [graphLookup_graphInsert]
    by_cases hk : k = (r, c)
    · subst hk
      rw [if_pos rfl, hod]
    · rw [if_neg hk, hcdProbeGraph_lookup_ne s r c f k hk]
  | none =>
    rw [graphLookup_graphRemove]
    by_cases hk : k = (r, c)
    · subst hk
      rw [if_pos rfl, hod]
    · rw [if_neg hk, hcdProbeGraph_lookup_ne s r c f k hk]

theorem hcd_fst_graphLookup (s : Sheet) (r c : Int) (f : List Char) (k : Coord) :
    graphLookup (has_circular_dependency s r c f).1.dependency_graph k =
      graphLookup s.dependency_graph k := by
  by_cases h : r < 0 ∨ r ≥ s.rows ∨ c < 0 ∨ c ≥ s.cols
  · rw [hcd_guard s r c f h]
  · cases hb : hcdBool s r c f
    · rw [hcd_eq_false s r c f h hb]
      exact hcdRestore_lookup s r c f k
    · rw [hcd_eq_true s r c f h hb]
      exact hcdRestore_lookup s r c f k

theorem hcd_fst_scalars (s : Sheet) (r c : Int) (f : List Char) :
    (has_circular_dependency s r c f).1.rows = s.rows ∧
    (has_circular_dependency s r c f).1.cols = s.cols ∧
    (has_circular_dependency s r c f).1.extension_enabled = s.extension_enabled ∧
    (has_circular_dependency s r c f).1.undo_stack = s.undo_stack ∧
    (has_circular_dependency s r c f).1.redo_stack = s.redo_stack ∧
    (has_circular_dependency s r c f).1.max_history_size = s.max_history_size := by
  by_cases h : r < 0 ∨ r ≥ s.rows ∨ c < 0 ∨ c ≥ s.cols
  · rw [hcd_guard s r c f h]
    exact ⟨rfl, rfl, rfl, rfl, rfl, rfl⟩
  · cases hb : hcdBool s r c f
    · rw [hcd_eq_false s r c f h hb]
      exact ⟨rfl, rfl, rfl, rfl, rfl, rfl⟩
    · rw [hcd_eq_true s r c f h hb]
      exact ⟨rfl, rfl, rfl, rfl, rfl, rfl⟩

theorem hcd_cells_of_false (s : Sheet) (r c : Int) (f : List Char)
    (h : (has_circular_dependency s r c f).2 = false) :
    (has_circular_dependency s r c f).1.cells = s.cells ∧
    (has_circular_dependency s r c f).1.circular_dependency_detected =
      s.circular_dependency_detected := by
  by_cases hg : r < 0 ∨ r ≥ s.rows ∨ c < 0 ∨ c ≥ s.cols
  · rw [hcd_guard s r c f hg]
    exact ⟨rfl, rfl⟩
  · cases hb : hcdBool s r c f
    · rw [hcd_eq_false s r c f hg hb]
      exact ⟨rfl, rfl⟩
    · rw [hcd_snd s r c f hg, hb] at h
      exact absurd h (by simp)

theorem hcd_cells_of_true (s : Sheet) (r c : Int) (f : List Char)
    (h : (has_circular_dependency s r c f).2 = true) :
    (has_circular_dependency s r c f).1.cells =
      setGridCell s.cells r c { getCell s r c with has_circular := true } ∧
    (has_circular_dependency s r c f).1.circular_dependency_detected = true := by
  by_cases hg : r < 0 ∨ r ≥ s.rows ∨ c < 0 ∨ c ≥ s.cols
  · rw [hcd_guard s r c f hg] at h
    exact absurd h (by simp)
  · cases hb : hcdBool s r c f
    · rw [hcd_snd s r c f hg, hb] at h
      exact absurd h (by simp)
    · rw [hcd_eq_true s r c f hg hb]
      exact ⟨rfl, rfl⟩

/-! ## Generic fold invariants -/

theorem foldl_inv_mem {α β : Type} (l : List β) (step : α → β → α)
    (Q : α → Prop) (hstep : ∀ st a, a ∈ l → Q st → Q (step st a)) :
    ∀ st, Q st → Q (l.foldl step st) := by
  induction l with
  | nil => intro st h; exact h
  | cons a rest ih =>
    intro st h
    exact ih (fun st2 b hb h2 => hstep st2 b (List.mem_cons_of_mem a hb) h2)
      (step st a) (hstep st a (List.mem_cons_self a rest) h)

/-! ## Frame lemmas for reset and recalculation -/

theorem reset_scalars (s : Sheet) :
    (reset_circular_dependency_flag s).rows = s.rows ∧
    (reset_circular_dependency_flag s).cols = s.cols ∧
    (reset_circular_dependency_flag s).extension_enabled = s.extension_enabled ∧
    (reset_circular_dependency_flag s).dependency_graph = s.dependency_graph ∧
    (reset_circular_dependency_flag s).undo_stack = s.undo_stack ∧
    (reset_circular_dependency_flag s).redo_stack = s.redo_stack ∧
    (reset_circular_dependency_flag s).max_history_size = s.max_history_size ∧
    (reset_circular_dependency_flag s).circular_dependency_detected = false :=
  ⟨rfl, rfl, rfl, rfl, rfl, rfl, rfl, rfl⟩

theorem reset_all_clear (s : Sheet) :
    ∀ rowL ∈ (reset_circular_dependency_flag s).cells, ∀ cell ∈ rowL,
      cell.has_circular = false := by
  intro rowL hrow cell hcell
  unfold reset_circular_dependency_flag at hrow
  simp only [List.mem_map] at hrow
  obtain ⟨rowL0, _, hmap⟩ := hrow
  rw [← hmap] at hcell
  simp only [List.mem_map] at hcell
  obtain ⟨cell0, _, hc⟩ := hcell
  rw [← hc]

/-- `applyRecompute` only writes cell `value`/`is_error`; every other sheet
field is untouched. -/
theorem applyRecompute_scalars (r c : Int) (s : Sheet) (topo : List Coord) :
    (applyRecompute r c s topo).rows = s.rows ∧
    (applyRecompute r c s topo).cols = s.cols ∧
    (applyRecompute r c s topo).circular_dependency_detected =
      s.circular_dependency_detected ∧
    (applyRecompute r c s topo).extension_enabled = s.extension_enabled ∧
    (applyRecompute r c s topo).dependency_graph = s.dependency_graph ∧
    (applyRecompute r c s topo).undo_stack = s.undo_stack ∧
    (applyRecompute r c s topo).redo_stack = s.redo_stack ∧
    (applyRecompute r c s topo).max_history_size = s.max_history_size := by
  unfold applyRecompute
  refine foldl_inv_mem topo _
    (fun st => st.rows = s.rows ∧ st.cols = s.cols ∧
      st.circular_dependency_detected = s.circular_dependency_detected ∧
      st.extension_enabled = s.extension_enabled ∧
      st.dependency_graph = s.dependency_graph ∧
      st.undo_stack = s.undo_stack ∧ st.redo_stack = s.redo_stack ∧
      st.max_history_size = s.max_history_size) ?_ s
    ⟨rfl, rfl, rfl, rfl, rfl, rfl, rfl, rfl⟩
  intro st p _ hq
  by_cases hp : p.1 = r ∧ p.2 = c
  · simp only [hp, and_self, if_true]
    exact hq
  · simp only [hp, if_false]
    cases (getCell st p.1 p.2).formula with
    | none => exact hq
    | some f => exact hq

/-- If every processed coordinate is the start cell or lands elsewhere in
the grid, the start cell is untouched by the recompute pass. -/
theorem applyRecompute_getCell_start (r c : Int) (s : Sheet)
    (topo : List Coord) (hr : 0 ≤ r) (hc : 0 ≤ c)
    (hp : ∀ p ∈ topo, p = (r, c) ∨ (0 ≤ p.1 ∧ 0 ≤ p.2)) :
    getCell (applyRecompute r c s topo) r c = getCell s r c := by
  unfold applyRecompute
  refine foldl_inv_mem topo _ (fun st => getCell st r c = getCell s r c) ?_ s rfl
  intro st p hmem hq
  by_cases hpc : p.1 = r ∧ p.2 = c
  · simp only [hpc, and_self, if_true]
    exact hq
  · simp only [hpc, if_false]
    have hne : ¬ (r.toNat = p.1.toNat ∧ c.toNat = p.2.toNat) := by
      rcases hp p hmem with heq | ⟨h1, h2⟩
      · exact absurd ⟨congrArg Prod.fst heq, congrArg Prod.snd heq⟩ hpc
      · intro ⟨ht1, ht2⟩
        apply hpc
        omega
    cases (getCell st p.1 p.2).formula with
    | none => exact hq
    | some f =>
      exact (getCell_modifyCell_ne st p.1 p.2 r c _ hne).trans hq

/-! Membership bounds for the BFS output and the topological order. -/

/-- A `Single` edge points at a nonnegative coordinate. -/
def depNonneg : DependencyType → Prop
  | DependencyType.Single dr dc => 0 ≤ dr ∧ 0 ≤ dc
  | DependencyType.Range _ _ _ _ => True

instance : DecidablePred depNonneg := by
  intro d
  cases d <;> unfold depNonneg <;> infer_instance

/-- Coordinates stored in the graph (keys and `Single` dependents) are
nonnegative; true of every reachable state, since parsed references are
bounds-checked. -/
def graphNonneg (g : DepGraph) : Prop :=
  ∀ e ∈ g, (0 ≤ e.1.1 ∧ 0 ≤ e.1.2) ∧ (∀ d ∈ e.2.dependents, depNonneg d)

instance (g : DepGraph) : Decidable (graphNonneg g) := by
  unfold graphNonneg; infer_instance

theorem bfsRangeScan_queue {g : DepGraph} (row col : Int)
    {P : Coord → Prop} (hg : ∀ e ∈ g, P e.1) :
    ∀ st, (∀ x ∈ st.2, P x) → ∀ x ∈ (bfsRangeScan g row col st).2, P x := by
  intro st hst
  unfold bfsRangeScan
  refine foldl_inv_mem g _ (fun st2 => ∀ x ∈ st2.2, P x) ?_ st hst
  intro st2 e he hq
  refine foldl_inv_mem e.2.dependencies _ (fun st3 => ∀ x ∈ st3.2, P x) ?_ st2 hq
  intro st3 dep _ hq3
  cases dep with
  | Single _ _ => exact hq3
  | Range sr sc er ec =>
    by_cases hcov : sr ≤ row ∧ row ≤ er ∧ sc ≤ col ∧ col ≤ ec
    · simp only [hcov, and_self, if_true]
      by_cases hv : e.1 ∈ st3.1
      · simp only [hv, if_true]
        exact hq3
      · simp only [hv, if_false]
        intro x hx
        rcases List.mem_append.mp hx with hx | hx
        · exact hq3 x hx
        · rcases List.mem_singleton.mp hx with rfl
          exact hg e he
    · simp only [hcov, if_false]
      exact hq3

theorem graphLookup_mem {g : DepGraph} {k : Coord} {cd : CellDependencies}
    (h : graphLookup g k = some cd) : ∃ e ∈ g, e.1 = k ∧ e.2 = cd := by
  unfold graphLookup at h
  cases hfind : g.find? (fun e => e.1 = k) with
  | none => rw [hfind] at h; simp at h
  | some e =>
    rw [hfind] at h
    simp only [Option.map_some'] at h
    have hk : e.1 = k := by
      have := List.find?_some hfind
      exact of_decide_eq_true this
    exact ⟨e, List.mem_of_find?_eq_some hfind, hk, Option.some.inj h⟩

theorem bfsDependentsStep_queue {P : Coord → Prop}
    {cdOpt : Option CellDependencies}
    (hdeps : ∀ cd, cdOpt = some cd → ∀ d ∈ cd.dependents, ∀ dr dc,
      d = DependencyType.Single dr dc → P (dr, dc)) :
    ∀ st, (∀ x ∈ st.2, P x) → ∀ x ∈ (bfsDependentsStep st cdOpt).2, P x := by
  intro st hst
  unfold bfsDependentsStep
  cases hcd : cdOpt with
  | none => exact hst
  | some cd =>
    refine foldl_inv_mem cd.dependents _ (fun st2 => ∀ x ∈ st2.2, P x) ?_ st hst
    intro st2 dep hdep hq
    cases dep with
    | Range _ _ _ _ => exact hq
    | Single r2 c2 =>
      by_cases hv : (r2, c2) ∈ st2.1
      · simp only [hv, if_true]
        exact hq
      · simp only [hv, if_false]
        intro y hy
        rcases List.mem_append.mp hy with hy | hy
        · exact hq y hy
        · rcases List.mem_singleton.mp hy with rfl
          exact hdeps cd hcd _ hdep r2 c2 rfl

theorem bfsLoop_mem {g : DepGraph} {P : Coord → Prop}
    (hg1 : ∀ e ∈ g, P e.1)
    (hg2 : ∀ e ∈ g, ∀ d ∈ e.2.dependents, ∀ dr dc,
      d = DependencyType.Single dr dc → P (dr, dc)) :
    ∀ fuel queue visited acc, (∀ x ∈ queue, P x) → (∀ x ∈ acc, P x) →
      ∀ x ∈ bfsLoop g fuel queue visited acc, P x := by
  intro fuel
  induction fuel with
  | zero => intro queue visited acc _ hacc x hx; exact hacc x hx
  | succ fuel ih =>
    intro queue visited acc hqueue hacc x hx
    cases hq : queue with
    | nil =>
      rw [hq] at hx
      exact hacc x hx
    | cons p qrest =>
      subst hq
      obtain ⟨row, col⟩ := p
      have hPstart : P (row, col) := hqueue (row, col) (List.mem_cons_self _ _)
      have hqrest : ∀ y ∈ qrest, P y :=
        fun y hy => hqueue y (List.mem_cons_of_mem _ hy)
      have hdeps : ∀ cd, graphLookup g (row, col) = some cd →
          ∀ d ∈ cd.dependents, ∀ dr dc,
            d = DependencyType.Single dr dc → P (dr, dc) := by
        intro cd hcd d hd dr dc hdd
        obtain ⟨e, heg, _, hecd⟩ := graphLookup_mem hcd
        exact hg2 e heg d (hecd ▸ hd) dr dc hdd
      have hst1 := bfsDependentsStep_queue hdeps (visited, qrest) hqrest
      have hst2 := bfsRangeScan_queue row col hg1 _ hst1
      have hacc1 : ∀ y ∈ acc ++ [(row, col)], P y := by
        intro y hy
        rcases List.mem_append.mp hy with hy | hy
        · exact hacc y hy
        · rcases List.mem_singleton.mp hy with rfl
          exact hPstart
      exact ih _ _ _ hst2 hacc1 x hx

theorem adjPush_values {x : Coord} (a : List (Coord × List Coord))
    (k v : Coord) :
    ∀ e ∈ adjPush a k v, x ∈ e.2 → (∃ e0 ∈ a, x ∈ e0.2) ∨ x = v := by
  induction a with
  | nil =>
    intro e he hx
    rcases List.mem_singleton.mp he with rfl
    rcases List.mem_singleton.mp hx with rfl
    exact Or.inr rfl
  | cons e0 rest ih =>
    intro e he hx
    by_cases hk : e0.1 = k
    · rw [show adjPush (e0 :: rest) k v = (k, e0.2 ++ [v]) :: rest by
        simp [adjPush, hk]] at he
      rcases List.mem_cons.mp he with rfl | he
      · rcases List.mem_append.mp hx with hx | hx
        · exact Or.inl ⟨e0, List.mem_cons_self _ _, hx⟩
        · exact Or.inr (List.mem_singleton.mp hx)
      · exact Or.inl ⟨e, List.mem_cons_of_mem _ he, hx⟩
    · rw [show adjPush (e0 :: rest) k v = e0 :: adjPush rest k v by
        simp [adjPush, hk]] at he
      rcases List.mem_cons.mp he with rfl | he
      · exact Or.inl ⟨e, List.mem_cons_self _ _, hx⟩
      · rcases ih e he hx with ⟨e1, he1, hx1⟩ | hv
        · exact Or.inl ⟨e1, List.mem_cons_of_mem _ he1, hx1⟩
        · exact Or.inr hv

theorem adjLookup_values {a : List (Coord × List Coord)} {k v : Coord}
    (h : v ∈ adjLookup a k) : ∃ e ∈ a, v ∈ e.2 := by
  unfold adjLookup at h
  cases hfind : a.find? (fun e => e.1 = k) with
  | none => rw [hfind] at h; simp at h
  | some e =>
    rw [hfind] at h
    simp only [Option.map_some', Option.getD_some] at h
    exact ⟨e, List.mem_of_find?_eq_some hfind, h⟩

/-- Every adjacency value produced by `buildTopoMaps` is a member of the
BFS output list. -/
theorem buildTopoMaps_adj_values (s : Sheet) (dependents : List Coord) :
    ∀ e ∈ (buildTopoMaps s dependents).1, ∀ v ∈ e.2, v ∈ dependents := by
  unfold buildTopoMaps
  refine foldl_inv_mem dependents _
    (fun (st : List (Coord × List Coord) × List (Coord × Int)) =>
      ∀ e ∈ st.1, ∀ v ∈ e.2, v ∈ dependents) ?_ ([], []) (by simp)
  intro st node hnode hq
  cases hcd : graphLookup s.dependency_graph node with
  | none => exact hq
  | some cd =>
    refine foldl_inv_mem cd.dependencies _
      (fun (st2 : List (Coord × List Coord) × List (Coord × Int)) =>
        ∀ e ∈ st2.1, ∀ v ∈ e.2, v ∈ dependents) ?_ _ hq
    intro st2 dep _ hq2
    cases dep with
    | Single dr dc =>
      by_cases hmem : (dr, dc) ∈ dependents
      · simp only [hmem, if_true]
        intro e he v hv
        rcases adjPush_values st2.1 (dr, dc) node e he hv with ⟨e0, he0, hv0⟩ | rfl
        · exact hq2 e0 he0 v hv0
        · exact hnode
      · simp only [hmem, if_false]
        exact hq2
    | Range sr sc er ec =>
      refine foldl_inv_mem (rangeCoords sr sc er ec) _
        (fun (st3 : List (Coord × List Coord) × List (Coord × Int)) =>
          ∀ e ∈ st3.1, ∀ v ∈ e.2, v ∈ dependents) ?_ _ hq2
      intro st3 p _ hq3
      by_cases hmem : p ∈ dependents
      · simp only [hmem, if_true]
        intro e he v hv
        rcases adjPush_values st3.1 p node e he hv with ⟨e0, he0, hv0⟩ | rfl
        · exact hq3 e0 he0 v hv0
        · exact hnode
      · simp only [hmem, if_false]
        exact hq3

theorem kahnLoop_mem {adj : List (Coord × List Coord)} {P : Coord → Prop}
    (hadj : ∀ e ∈ adj, ∀ v ∈ e.2, P v) :
    ∀ fuel indeg queue topo, (∀ x ∈ queue, P x) → (∀ x ∈ topo, P x) →
      ∀ x ∈ kahnLoop adj fuel indeg queue topo, P x := by
  intro fuel
  induction fuel with
  | zero => intro indeg queue topo _ htopo x hx; exact htopo x hx
  | succ fuel ih =>
    intro indeg queue topo hqueue htopo x hx
    cases hq : queue with
    | nil =>
      rw [hq] at hx
      exact htopo x hx
    | cons node qrest =>
      subst hq
      have hPnode : P node := hqueue node (List.mem_cons_self _ _)
      have hqrest : ∀ y ∈ qrest, P y :=
        fun y hy => hqueue y (List.mem_cons_of_mem _ hy)
      have htopo1 : ∀ y ∈ topo ++ [node], P y := by
        intro y hy
        rcases List.mem_append.mp hy with hy | hy
        · exact htopo y hy
        · rcases List.mem_singleton.mp hy with rfl
          exact hPnode
      have hst2 : ∀ y ∈ ((adjLookup adj node).foldl
          (fun (st : List (Coord × Int) × List Coord) nb =>
            let dg := (degLookup st.1 nb).getD 0 - 1
            let indeg1 := degSetVal st.1 nb dg
            if dg = 0 then (indeg1, st.2 ++ [nb]) else (indeg1, st.2))
          (indeg, qrest)).2, P y := by
        refine foldl_inv_mem (adjLookup adj node) _
          (fun (st : List (Coord × Int) × List Coord) => ∀ y ∈ st.2, P y)
          ?_ _ hqrest
        intro st nb hnb hq2
        obtain ⟨e, he, hnbe⟩ := adjLookup_values hnb
        have hPnb : P nb := hadj e he nb hnbe
        by_cases hdg : (degLookup st.1 nb).getD 0 - 1 = 0
        · simp only [hdg, if_true]
          intro y hy
          rcases List.mem_append.mp hy with hy | hy
          · exact hq2 y hy
          · rcases List.mem_singleton.mp hy with rfl
            exact hPnb
        · simp only [hdg, if_false]
          exact hq2
      exact ih _ _ _ hst2 htopo1 x hx

/-- `recalculate_dependents` never touches the dependency graph or any
scalar field of the sheet. -/
theorem recalc_scalars (s : Sheet) (r c : Int) :
    (recalculate_dependents s r c).rows = s.rows ∧
    (recalculate_dependents s r c).cols = s.cols ∧
    (recalculate_dependents s r c).circular_dependency_detected =
      s.circular_dependency_detected ∧
    (recalculate_dependents s r c).extension_enabled = s.extension_enabled ∧
    (recalculate_dependents s r c).dependency_graph = s.dependency_graph ∧
    (recalculate_dependents s r c).undo_stack = s.undo_stack ∧
    (recalculate_dependents s r c).redo_stack = s.redo_stack ∧
    (recalculate_dependents s r c).max_history_size = s.max_history_size := by
  unfold recalculate_dependents
  by_cases h : r < 0 ∨ r ≥ s.rows ∨ c < 0 ∨ c ≥ s.cols
  · rw [if_pos h]
    exact ⟨rfl, rfl, rfl, rfl, rfl, rfl, rfl, rfl⟩
  · rw [if_neg h]
    exact applyRecompute_scalars r c s _

/-- `recalculate_dependents` leaves the start cell untouched (the recompute
loop skips it, and with a nonnegative-coordinate graph no other write can
alias its grid slot). -/
theorem recalc_getCell_start (s : Sheet) (r c : Int)
    (hnn : graphNonneg s.dependency_graph) :
    getCell (recalculate_dependents s r c) r c = getCell s r c := by
  unfold recalculate_dependents
  by_cases h : r < 0 ∨ r ≥ s.rows ∨ c < 0 ∨ c ≥ s.cols
  · rw [if_pos h]
  · rw [if_neg h]
    have hr : 0 ≤ r := by omega
    have hc : 0 ≤ c := by omega
    set P : Coord → Prop := fun x => x = (r, c) ∨ (0 ≤ x.1 ∧ 0 ≤ x.2) with hP
    have hdeps : ∀ x ∈ bfsLoop s.dependency_graph (bfsFuel s.dependency_graph)
        [(r, c)] [(r, c)] [], P x := by
      refine bfsLoop_mem ?_ ?_ _ _ _ _ ?_ ?_
      · intro e he
        exact Or.inr (hnn e he).1
      · intro e he d hd dr dc hdd
        have hdn := (hnn e he).2 d hd
        rw [hdd] at hdn
        exact Or.inr hdn
      · intro x hx
        rcases List.mem_singleton.mp hx with rfl
        exact Or.inl rfl
      · intro x hx
        exact absurd hx (List.not_mem_nil x)
    have htopo : ∀ x ∈ kahnLoop
        (buildTopoMaps s (bfsLoop s.dependency_graph
          (bfsFuel s.dependency_graph) [(r, c)] [(r, c)] [])).1
        (kahnFuel (bfsLoop s.dependency_graph
          (bfsFuel s.dependency_graph) [(r, c)] [(r, c)] [])
          (buildTopoMaps s (bfsLoop s.dependency_graph
            (bfsFuel s.dependency_graph) [(r, c)] [(r, c)] [])).1)
        (buildTopoMaps s (bfsLoop s.dependency_graph
          (bfsFuel s.dependency_graph) [(r, c)] [(r, c)] [])).2
        ((bfsLoop s.dependency_graph
          (bfsFuel s.dependency_graph) [(r, c)] [(r, c)] []).filter
          (fun node => (degLookup (buildTopoMaps s (bfsLoop s.dependency_graph
            (bfsFuel s.dependency_graph) [(r, c)] [(r, c)] [])).2 node).getD 0 = 0))
        [], P x := by
      refine kahnLoop_mem ?_ _ _ _ _ ?_ ?_
      · intro e he v hv
        exact hdeps v (buildTopoMaps_adj_values s _ e he v hv)
      · intro x hx
        exact hdeps x (List.mem_of_mem_filter hx)
      · intro x hx
        exact absurd hx (List.not_mem_nil x)
    exact applyRecompute_getCell_start r c s _ hr hc htopo

/-! ## update_cell branch lemmas and congruences -/

theorem update_cell_guard (s : Sheet) (row col : Int) (formula : List Char)
    (h : row < 0 ∨ row ≥ s.rows ∨ col < 0 ∨ col ≥ s.cols ∨
      is_valid_formula s formula = false) :
    update_cell s row col formula = s := by
  unfold update_cell
  rw [if_pos h]

theorem update_cell_eq_circ (s : Sheet) (row col : Int) (formula : List Char)
    (h : ¬ (row < 0 ∨ row ≥ s.rows ∨ col < 0 ∨ col ≥ s.cols ∨
      is_valid_formula s formula = false))
    (hb : (has_circular_dependency s row col formula).2 = true) :
    update_cell s row col formula =
      recalculate_dependents
        (modifyCell (has_circular_dependency s row col formula).1 row col
          (fun cell =>
            { cell with formula := some formula, is_formula := true,
                        has_circular := true }))
        row col := by
  unfold update_cell
  rw [if_neg h]
  have hpair : has_circular_dependency s row col formula =
      ((has_circular_dependency s row col formula).1, true) := by
    rw [← hb]
  rw [hpair]

/-- The sheet state just before the recalculation of the non-circular
branch of `update_cell`: cell fields written, graph rewired. -/
def ucMainSheet (s : Sheet) (row col : Int) (formula : List Char) : Sheet :=
  let s1 := (has_circular_dependency s row col formula).1
  let ve := evaluate_expression s1 formula row col
  let s2 := modifyCell s1 row col (fun cell =>
    { cell with formula := some formula, is_formula := true,
                value := ve.1, is_error := ve.2 })
  { s2 with
    dependency_graph :=
      updateCellGraph s2.dependency_graph row col (parseDependencies s1 formula) }

theorem update_cell_eq_main (s : Sheet) (row col : Int) (formula : List Char)
    (h : ¬ (row < 0 ∨ row ≥ s.rows ∨ col < 0 ∨ col ≥ s.cols ∨
      is_valid_formula s formula = false))
    (hb : (has_circular_dependency s row col formula).2 = false) :
    update_cell s row col formula =
      reset_circular_dependency_flag (recalculate_dependents
        (ucMainSheet s row col formula) row col) := by
  unfold update_cell ucMainSheet
  rw [if_neg h]
  have hpair : has_circular_dependency s row col formula =
      ((has_circular_dependency s row col formula).1, false) := by
    rw [← hb]
  rw [hpair]

theorem parse_cell_reference_congr {s1 s2 : Sheet} (h1 : s1.rows = s2.rows)
    (h2 : s1.cols = s2.cols) (x : List Char) :
    parse_cell_reference s1 x = parse_cell_reference s2 x := by
  simp only [parse_cell_reference, h1, h2]

theorem parse_range_congr {s1 s2 : Sheet} (h1 : s1.rows = s2.rows)
    (h2 : s1.cols = s2.cols) (x : List Char) :
    parse_range s1 x = parse_range s2 x := by
  simp only [parse_range, parse_cell_reference_congr h1 h2]

theorem parseDependencies_congr {s1 s2 : Sheet} (h1 : s1.rows = s2.rows)
    (h2 : s1.cols = s2.cols) (f : List Char) :
    parseDependencies s1 f = parseDependencies s2 f := by
  simp only [parseDependencies, parse_range_congr h1 h2,
    parse_cell_reference_congr h1 h2]

/-! ## Structure-level membership and invariant preservation -/

theorem mem_graphInsert {g : DepGraph} {k : Coord} {v : CellDependencies}
    {e : Coord × CellDependencies} (h : e ∈ graphInsert g k v) :
    e ∈ g ∨ e = (k, v) := by
  induction g with
  | nil => exact Or.inr (List.mem_singleton.mp h)
  | cons e0 rest ih =>
    by_cases hk : e0.1 = k
    · rw [graphInsert_cons_eq e0 rest k v hk] at h
      rcases List.mem_cons.mp h with rfl | h
      · exact Or.inr rfl
      · exact Or.inl (List.mem_cons_of_mem _ h)
    · rw [graphInsert_cons_ne e0 rest k v hk] at h
      rcases List.mem_cons.mp h with rfl | h
      · exact Or.inl (List.mem_cons_self _ _)
      · rcases ih h with h | h
        · exact Or.inl (List.mem_cons_of_mem _ h)
        · exact Or.inr h

theorem mem_graphRemove {g : DepGraph} {k : Coord}
    {e : Coord × CellDependencies} (h : e ∈ graphRemove g k) : e ∈ g :=
  List.mem_of_mem_filter h

/-- The probe graph and the restored graph keep all coordinates
nonnegative (the probe entry's key is the probed cell and its dependents
are the original ones). -/
theorem graphNonneg_hcdRestore (s : Sheet) (r c : Int) (f : List Char)
    (hnn : graphNonneg s.dependency_graph) (hr : 0 ≤ r) (hc : 0 ≤ c) :
    graphNonneg (hcdRestore s r c f) := by
  have hprobe : graphNonneg (hcdProbeGraph s r c f) := by
    intro e he
    unfold hcdProbeGraph at he
    rcases mem_graphInsert he with he2 | rfl
    · exact hnn e (mem_graphRemove he2)
    · refine ⟨⟨hr, hc⟩, ?_⟩
      show ∀ d ∈ (match graphLookup s.dependency_graph (r, c) with
        | some d => d.dependents | none => []), depNonneg d
      cases hod : graphLookup s.dependency_graph (r, c) with
      | none =>
        intro d hd
        exact absurd hd (List.not_mem_nil d)
      | some od =>
        intro d hd
        obtain ⟨e0, he0, _, hecd⟩ := graphLookup_mem hod
        exact (hnn e0 he0).2 d (hecd ▸ hd)
  unfold hcdRestore
  cases hod : graphLookup s.dependency_graph (r, c) with
  | some od =>
    intro e he
    rcases mem_graphInsert he with he2 | rfl
    · exact hprobe e he2
    · obtain ⟨e0, he0, _, hecd⟩ := graphLookup_mem hod
      refine ⟨⟨hr, hc⟩, ?_⟩
      intro d hd
      exact (hnn e0 he0).2 d (hecd ▸ hd)
  | none =>
    intro e he
    exact hprobe e (mem_graphRemove he)

theorem getCell_cells_congr {s1 s2 : Sheet} (h : s1.cells = s2.cells)
    (i j : Int) : getCell s1 i j = getCell s2 i j := by
  unfold getCell
  rw [h]

theorem gridWFg_in_bounds {g : List (List Cell)} {rows cols r c : Int}
    (h : gridWFg g rows cols) (hr : 0 ≤ r) (hrr : r < rows)
    (hc : 0 ≤ c) (hcc : c < cols) :
    r.toNat < g.length ∧ c.toNat < (g.getD r.toNat []).length := by
  have h1 : r.toNat < g.length := by rw [h.1]; omega
  refine ⟨h1, ?_⟩
  have hmem : g.getD r.toNat [] ∈ g := by
    have : g.getD r.toNat [] = g.get ⟨r.toNat, h1⟩ := by
      rw [List.getD_eq_getElem?_getD, List.getElem?_eq_getElem h1]
      rfl
    rw [this]
    exact List.getElem_mem h1
  rw [h.2 _ hmem]
  omega

theorem gridWFg_set (g : List (List Cell)) (rows cols : Int) (r c : Int)
    (cell : Cell) (h : gridWFg g rows cols) :
    gridWFg (setGridCell g r c cell) rows cols := by
  refine ⟨?_, ?_⟩
  · show (g.set r.toNat _).length = rows.toNat
    rw [List.length_set]
    exact h.1
  · intro rowL hrow
    by_cases hlt : r.toNat < g.length
    · rcases List.mem_or_eq_of_mem_set hrow with hin | heq
      · exact h.2 rowL hin
      · rw [heq, List.length_set]
        apply h.2
        have hgd : g.getD r.toNat [] = g.get ⟨r.toNat, hlt⟩ := by
          rw [List.getD_eq_getElem?_getD, List.getElem?_eq_getElem hlt]
          rfl
        rw [hgd]
        exact List.getElem_mem hlt
    · unfold setGridCell at hrow
      rw [List.set_eq_of_length_le (Nat.le_of_not_lt hlt)] at hrow
      exact h.2 rowL hrow

/-- The probe preserves grid shape. -/
theorem gridWF_hcd (s : Sheet) (r c : Int) (f : List Char) (h : gridWF s) :
    gridWF (has_circular_dependency s r c f).1 := by
  have hrows := (hcd_fst_scalars s r c f).1
  have hcols := (hcd_fst_scalars s r c f).2.1
  unfold gridWF
  rw [hrows, hcols]
  cases hb : (has_circular_dependency s r c f).2
  · rw [(hcd_cells_of_false s r c f hb).1]
    exact h
  · rw [(hcd_cells_of_true s r c f hb).1]
    exact gridWFg_set s.cells s.rows s.cols r c _ h

/-- An immediate self-reference makes the probe loop return `true` at once. -/
theorem hcdBool_self (s : Sheet) (r c : Int) (f : List Char)
    (h : hcdNewDeps s f = [DependencyType.Single r c]) :
    hcdBool s r c f = true := by
  unfold hcdBool
  rw [h]
  unfold probeLoop
  simp

theorem parseDependencies_nil (s : Sheet) : parseDependencies s [] = [] := rfl

/-- A `Range` candidate whose rectangle contains the start coordinate makes
the probe loop return `true`, whatever the DFS results of the other
candidates are. -/
theorem probeLoop_true_of_range (g : DepGraph) (r c : Int) (fuel : Nat) :
    ∀ (deps : List DependencyType) (visited : List Coord)
      (sr sc er ec : Int),
      DependencyType.Range sr sc er ec ∈ deps →
      sr ≤ r → r ≤ er → sc ≤ c → c ≤ ec →
      probeLoop g r c fuel deps visited = true := by
  intro deps
  induction deps with
  | nil =>
    intro visited sr sc er ec hmem
    exact absurd hmem (List.not_mem_nil _)
  | cons d rest ih =>
    intro visited sr sc er ec hmem h1 h2 h3 h4
    cases d with
    | Single dr dc =>
      have hmem2 : DependencyType.Range sr sc er ec ∈ rest := by
        rcases List.mem_cons.mp hmem with heq | hmem2
        · exact absurd heq (by intro hh; cases hh)
        · exact hmem2
      unfold probeLoop
      by_cases hself : dr = r ∧ dc = c
      · rw [if_pos hself]
      · rw [if_neg hself]
        rcases dfs g r c fuel dr dc [(r, c)] visited with ⟨b, p2, v2⟩
        cases b
        · exact ih v2 sr sc er ec hmem2 h1 h2 h3 h4
        · rfl
    | Range sr2 sc2 er2 ec2 =>
      unfold probeLoop
      by_cases hcov : sr2 ≤ r ∧ r ≤ er2 ∧ sc2 ≤ c ∧ c ≤ ec2
      · rw [if_pos hcov]
      · rw [if_neg hcov]
        rcases List.mem_cons.mp hmem with heq | hmem2
        · exfalso
          cases heq
          exact hcov ⟨h1, h2, h3, h4⟩
        · rcases probeCorners g r c fuel
            [(sr2, sc2), (sr2, ec2), (er2, sc2), (er2, ec2)] visited with ⟨b, v2⟩
          cases b
          · exact ih v2 sr sc er ec hmem2 h1 h2 h3 h4
          · rfl

/-! ## Claim theorems -/

/-- C9: calling `update_cell` with an out-of-bounds coordinate or a formula
rejected by `is_valid_formula` returns without mutating anything: the
resulting sheet (cells, dependency graph, and all flags) is exactly the
input sheet. -/
theorem claim_C9 (s : Sheet) (row col : Int) (formula : List Char)
    (h : row < 0 ∨ row ≥ s.rows ∨ col < 0 ∨ col ≥ s.cols ∨
      is_valid_formula s formula = false) :
    update_cell s row col formula = s :=
  update_cell_guard s row col formula h

theorem claim_C9_witness :
    update_cell (create_sheet 2 2 false) 5 0 ("7".data) =
      create_sheet 2 2 false :=
  claim_C9 (create_sheet 2 2 false) 5 0 ("7".data) (by decide)

theorem hcd_fst_graph_eq_restore (s : Sheet) (r c : Int) (f : List Char)
    (h : ¬ (r < 0 ∨ r ≥ s.rows ∨ c < 0 ∨ c ≥ s.cols)) :
    (has_circular_dependency s r c f).1.dependency_graph =
      hcdRestore s r c f := by
  cases hb : hcdBool s r c f
  · rw [hcd_eq_false s r c f h hb]
  · rw [hcd_eq_true s r c f h hb]

/-- C4: whether or not `has_circular_dependency` detects a cycle, the
dependency graph after the call maps every coordinate to exactly what it
mapped to before (the probe is restored), every other cell is unmodified,
the probed cell can differ only in its `has_circular` flag, and every
sheet field other than the grid and the sheet-wide circular flag is
unchanged. -/
theorem claim_C4 (s : Sheet) (r c : Int) (f : List Char) :
    (∀ k, graphLookup
        (has_circular_dependency s r c f).1.dependency_graph k =
      graphLookup s.dependency_graph k) ∧
    (∀ i j : Int, ¬ (i.toNat = r.toNat ∧ j.toNat = c.toNat) →
      getCell (has_circular_dependency s r c f).1 i j = getCell s i j) ∧
    ((getCell (has_circular_dependency s r c f).1 r c).value =
        (getCell s r c).value ∧
      (getCell (has_circular_dependency s r c f).1 r c).formula =
        (getCell s r c).formula ∧
      (getCell (has_circular_dependency s r c f).1 r c).is_formula =
        (getCell s r c).is_formula ∧
      (getCell (has_circular_dependency s r c f).1 r c).is_error =
        (getCell s r c).is_error ∧
      (getCell (has_circular_dependency s r c f).1 r c).is_bold =
        (getCell s r c).is_bold ∧
      (getCell (has_circular_dependency s r c f).1 r c).is_italic =
        (getCell s r c).is_italic ∧
      (getCell (has_circular_dependency s r c f).1 r c).is_underline =
        (getCell s r c).is_underline) ∧
    ((has_circular_dependency s r c f).1.rows = s.rows ∧
      (has_circular_dependency s r c f).1.cols = s.cols ∧
      (has_circular_dependency s r c f).1.extension_enabled =
        s.extension_enabled ∧
      (has_circular_dependency s r c f).1.undo_stack = s.undo_stack ∧
      (has_circular_dependency s r c f).1.redo_stack = s.redo_stack ∧
      (has_circular_dependency s r c f).1.max_history_size =
        s.max_history_size) := by
  refine ⟨hcd_fst_graphLookup s r c f, ?_, ?_, hcd_fst_scalars s r c f⟩
  · intro i j hne
    cases hb : (has_circular_dependency s r c f).2
    · exact getCell_cells_congr (hcd_cells_of_false s r c f hb).1 i j
    · have hcells : (has_circular_dependency s r c f).1.cells =
          (setCell s r c { getCell s r c with has_circular := true }).cells :=
        (hcd_cells_of_true s r c f hb).1
      rw [getCell_cells_congr hcells i j]
      exact getCell_setCell_ne s r c i j _ hne
  · cases hb : (has_circular_dependency s r c f).2
    · have heq := getCell_cells_congr (hcd_cells_of_false s r c f hb).1 r c
      rw [heq]
      exact ⟨rfl, rfl, rfl, rfl, rfl, rfl, rfl⟩
    · have hcells : (has_circular_dependency s r c f).1.cells =
          (setCell s r c { getCell s r c with has_circular := true }).cells :=
        (hcd_cells_of_true s r c f hb).1
      rw [getCell_cells_congr hcells r c]
      have hcases := getCell_modifyCell_cases s r c r c
        (fun _ => { getCell s r c with has_circular := true })
      rcases hcases with hland | hmiss
      · rw [show getCell
            (setCell s r c { getCell s r c with has_circular := true }) r c =
            { getCell s r c with has_circular := true } from hland]
        exact ⟨rfl, rfl, rfl, rfl, rfl, rfl, rfl⟩
      · rw [show getCell
            (setCell s r c { getCell s r c with has_circular := true }) r c =
            getCell s r c from hmiss]
        exact ⟨rfl, rfl, rfl, rfl, rfl, rfl, rfl⟩

theorem claim_C4_witness :
    graphLookup (has_circular_dependency (create_sheet 2 2 false) 0 0
      ("A1".data)).1.dependency_graph (0, 1) =
        graphLookup (create_sheet 2 2 false).dependency_graph (0, 1) ∧
    getCell (has_circular_dependency (create_sheet 2 2 false) 0 0
      ("A1".data)).1 1 1 = getCell (create_sheet 2 2 false) 1 1 :=
  ⟨(claim_C4 (create_sheet 2 2 false) 0 0 ("A1".data)).1 (0, 1),
   (claim_C4 (create_sheet 2 2 false) 0 0 ("A1".data)).2.1 1 1 (by decide)⟩

/-- C3: if the candidate dependencies of the formula contain a `Range`
whose inclusive rectangle covers the (in-bounds) probed coordinate, then
`has_circular_dependency` returns `true`, flags the cell `has_circular`,
and sets the sheet-wide circular flag. -/
theorem claim_C3 (s : Sheet) (r c sr sc er ec : Int) (f : List Char)
    (hwf : gridWF s) (hr : 0 ≤ r) (hrr : r < s.rows)
    (hc : 0 ≤ c) (hcc : c < s.cols)
    (hmem : DependencyType.Range sr sc er ec ∈ parseDependencies s f)
    (h1 : sr ≤ r) (h2 : r ≤ er) (h3 : sc ≤ c) (h4 : c ≤ ec) :
    (has_circular_dependency s r c f).2 = true ∧
    (getCell (has_circular_dependency s r c f).1 r c).has_circular = true ∧
    (has_circular_dependency s r c f).1.circular_dependency_detected = true := by
  have hguard : ¬ (r < 0 ∨ r ≥ s.rows ∨ c < 0 ∨ c ≥ s.cols) := by
    push_neg
    exact ⟨by omega, by omega, by omega, by omega⟩
  have hne : ¬ f = [] := by
    intro hf
    rw [hf, parseDependencies_nil] at hmem
    exact absurd hmem (List.not_mem_nil _)
  have hnd : hcdNewDeps s f = parseDependencies s f := by
    unfold hcdNewDeps
    rw [if_neg hne]
  have hbool : hcdBool s r c f = true := by
    unfold hcdBool
    rw [hnd]
    exact probeLoop_true_of_range _ r c _ _ [] sr sc er ec hmem h1 h2 h3 h4
  have hsnd : (has_circular_dependency s r c f).2 = true := by
    rw [hcd_snd s r c f hguard]
    exact hbool
  refine ⟨hsnd, ?_, (hcd_cells_of_true s r c f hsnd).2⟩
  have hcells : (has_circular_dependency s r c f).1.cells =
      (setCell s r c { getCell s r c with has_circular := true }).cells :=
    (hcd_cells_of_true s r c f hsnd).1
  rw [getCell_cells_congr hcells r c]
  obtain ⟨hb1, hb2⟩ := gridWFg_in_bounds hwf hr hrr hc hcc
  rw [getCell_setCell_self s r c _ hb1 hb2]

theorem claim_C3_witness :
    gridWF (create_sheet 3 3 false) ∧
    DependencyType.Range 0 0 2 0 ∈
      parseDependencies (create_sheet 3 3 false) ("SUM(A1:A3)".data) ∧
    (has_circular_dependency (create_sheet 3 3 false) 0 0
      ("SUM(A1:A3)".data)).2 = true ∧
    (getCell (has_circular_dependency (create_sheet 3 3 false) 0 0
      ("SUM(A1:A3)".data)).1 0 0).has_circular = true :=
  ⟨by decide, by decide,
   (claim_C3 (create_sheet 3 3 false) 0 0 0 0 2 0 ("SUM(A1:A3)".data)
      (by decide) (by decide) (by decide) (by decide) (by decide)
      (by decide) (by decide) (by decide) (by decide) (by decide)).1,
   (claim_C3 (create_sheet 3 3 false) 0 0 0 0 2 0 ("SUM(A1:A3)".data)
      (by decide) (by decide) (by decide) (by decide) (by decide)
      (by decide) (by decide) (by decide) (by decide) (by decide)).2.1⟩

/-- C2: an in-bounds edit whose formula is a bare self-reference (its
candidate dependency list is exactly `[Single r c]`) leaves the cell
flagged `has_circular`, stores the formula text on the cell, keeps the
stored value stale (unchanged), and commits nothing to the dependency
graph: every coordinate's entry, including the edited cell's, is exactly
as before the call. -/
theorem claim_C2 (s : Sheet) (r c : Int) (f : List Char)
    (hwf : gridWF s) (hnn : graphNonneg s.dependency_graph)
    (hr : 0 ≤ r) (hrr : r < s.rows) (hc : 0 ≤ c) (hcc : c < s.cols)
    (hv : is_valid_formula s f = true)
    (hp : parseDependencies s f = [DependencyType.Single r c]) :
    (getCell (update_cell s r c f) r c).has_circular = true ∧
    (getCell (update_cell s r c f) r c).formula = some f ∧
    (getCell (update_cell s r c f) r c).is_formula = true ∧
    (getCell (update_cell s r c f) r c).value = (getCell s r c).value ∧
    (∀ k, graphLookup (update_cell s r c f).dependency_graph k =
      graphLookup s.dependency_graph k) := by
  have hguardB : ¬ (r < 0 ∨ r ≥ s.rows ∨ c < 0 ∨ c ≥ s.cols) := by
    push_neg
    exact ⟨by omega, by omega, by omega, by omega⟩
  have hguard : ¬ (r < 0 ∨ r ≥ s.rows ∨ c < 0 ∨ c ≥ s.cols ∨
      is_valid_formula s f = false) := by
    intro hcon
    rcases hcon with h | h | h | h | h
    · omega
    · omega
    · omega
    · omega
    · rw [hv] at h
      exact absurd h (by simp)
  have hne : ¬ f = [] := by
    intro hf
    rw [hf, parseDependencies_nil] at hp
    exact absurd hp (by simp)
  have hnd : hcdNewDeps s f = [DependencyType.Single r c] := by
    unfold hcdNewDeps
    rw [if_neg hne]
    exact hp
  have hbool : hcdBool s r c f = true := hcdBool_self s r c f hnd
  have hsnd : (has_circular_dependency s r c f).2 = true := by
    rw [hcd_snd s r c f hguardB]
    exact hbool
  have heq := update_cell_eq_circ s r c f hguard hsnd
  -- the cell just before recalculation
  set s1 := (has_circular_dependency s r c f).1 with hs1
  set s2 := modifyCell s1 r c
    (fun cell =>
      { cell with formula := some f, is_formula := true,
                  has_circular := true }) with hs2
  have hrows1 : s1.rows = s.rows := (hcd_fst_scalars s r c f).1
  have hcols1 : s1.cols = s.cols := (hcd_fst_scalars s r c f).2.1
  have hwf1 : gridWF s1 := gridWF_hcd s r c f hwf
  have hb1 : r.toNat < s1.cells.length ∧
      c.toNat < (s1.cells.getD r.toNat []).length := by
    refine gridWFg_in_bounds hwf1 hr ?_ hc ?_
    · rw [hrows1]; exact hrr
    · rw [hcols1]; exact hcc
  have hcell1 : getCell s1 r c = { getCell s r c with has_circular := true } := by
    have hcells : s1.cells =
        (setCell s r c { getCell s r c with has_circular := true }).cells :=
      (hcd_cells_of_true s r c f hsnd).1
    rw [getCell_cells_congr hcells r c]
    obtain ⟨hx1, hx2⟩ := gridWFg_in_bounds hwf hr hrr hc hcc
    exact getCell_setCell_self s r c _ hx1 hx2
  have hcell2 : getCell s2 r c =
      { getCell s r c with formula := some f, is_formula := true,
                           has_circular := true } := by
    rw [hs2, getCell_modifyCell_self s1 r c _ hb1.1 hb1.2, hcell1]
  have hg2 : s2.dependency_graph = hcdRestore s r c f := by
    rw [hs2]
    have hms := (modifyCell_scalar s1 r c (fun cell =>
      { cell with formula := some f, is_formula := true,
                  has_circular := true })).2.2.2.2.1
    rw [hms, hs1]
    exact hcd_fst_graph_eq_restore s r c f hguardB
  have hnn2 : graphNonneg s2.dependency_graph := by
    rw [hg2]
    exact graphNonneg_hcdRestore s r c f hnn hr hc
  have hfinal : update_cell s r c f = recalculate_dependents s2 r c := heq
  have hkeep : getCell (update_cell s r c f) r c = getCell s2 r c := by
    rw [hfinal]
    exact recalc_getCell_start s2 r c hnn2
  have hgfinal : (update_cell s r c f).dependency_graph = s2.dependency_graph := by
    rw [hfinal]
    exact (recalc_scalars s2 r c).2.2.2.2.1
  refine ⟨?_, ?_, ?_, ?_, ?_⟩
  · rw [hkeep, hcell2]
  · rw [hkeep, hcell2]
  · rw [hkeep, hcell2]
  · rw [hkeep, hcell2]
  · intro k
    rw [hgfinal, hg2, hcdRestore_lookup]

theorem claim_C2_witness :
    (getCell (update_cell (create_sheet 2 2 false) 0 0 ("A1".data)) 0 0).has_circular
        = true ∧
    (getCell (update_cell (create_sheet 2 2 false) 0 0 ("A1".data)) 0 0).formula
        = some ("A1".data) :=
  ⟨(claim_C2 (create_sheet 2 2 false) 0 0 ("A1".data) (by decide) (by decide)
      (by decide) (by decide) (by decide) (by decide) (by decide)
      (by decide)).1,
   (claim_C2 (create_sheet 2 2 false) 0 0 ("A1".data) (by decide) (by decide)
      (by decide) (by decide) (by decide) (by decide) (by decide)
      (by decide)).2.1⟩

/-- C10: every successful (in-bounds, valid, non-circular) call to
`update_cell` ends by clearing `has_circular` on every cell of the entire
grid and clearing the sheet-wide `circular_dependency_detected` flag. -/
theorem claim_C10 (s : Sheet) (row col : Int) (formula : List Char)
    (hguard : ¬ (row < 0 ∨ row ≥ s.rows ∨ col < 0 ∨ col ≥ s.cols ∨
      is_valid_formula s formula = false))
    (hnc : (has_circular_dependency s row col formula).2 = false) :
    (∀ rowL ∈ (update_cell s row col formula).cells, ∀ cell ∈ rowL,
      cell.has_circular = false) ∧
    (update_cell s row col formula).circular_dependency_detected = false := by
  rw [update_cell_eq_main s row col formula hguard hnc]
  exact ⟨reset_all_clear _, rfl⟩

theorem claim_C10_witness :
    (∀ rowL ∈ (update_cell (create_sheet 2 2 false) 0 0 ("5".data)).cells,
      ∀ cell ∈ rowL, cell.has_circular = false) ∧
    (update_cell (create_sheet 2 2 false) 0 0
      ("5".data)).circular_dependency_detected = false :=
  claim_C10 (create_sheet 2 2 false) 0 0 ("5".data) (by decide) (by decide)

/-- C1: the fixpoint postcondition fails on the code.  Evaluation of the
three-edit scenario: A1 = "B1" (commits A1 -> B1); B1 = "A1" (cycle
detected, B1's formula stored but its edges never committed); A1 = "5"
(succeeds, clears every `has_circular` flag).  Afterwards B1 is a formula
cell, not circular (its formula "A1" reads the literal cell A1, and its
flag was reset), it is affected by the edit of A1, yet its stored value 0
differs from evaluating its formula, which yields 5: the recalculation
never reaches B1 because its dependency edge was never committed. -/
theorem claim_C1_bug :
    (getCell c1Step2 0 1).has_circular = true ∧
    (getCell c1Step3 0 0).formula = some ("5".data) ∧
    (getCell c1Step3 0 0).value = 5 ∧
    (getCell c1Step3 0 0).is_formula = true ∧
    (getCell c1Step3 0 1).is_formula = true ∧
    (getCell c1Step3 0 1).formula = some ("A1".data) ∧
    (getCell c1Step3 0 1).has_circular = false ∧
    (getCell c1Step3 0 1).is_error = false ∧
    evaluate_expression c1Step3 ("A1".data) 0 1 = (5, false) ∧
    (getCell c1Step3 0 1).value = 0 := by decide

/-- C5 (counterexample): replacing A1 = "B1+C1" by A1 = "B1+1" is a
successful `update_cell` replacing a formula; afterwards the old `Single`
dependency target B1 still lists A1 among its dependents (A1 was re-added
for the new formula), and the old target C1 keeps a graph entry with two
empty lists — both conjuncts of the claim fail at this input. -/
theorem claim_C5_counterexample :
    graphLookup c5Step1.dependency_graph (0, 0) =
      some ⟨[DependencyType.Single 0 1, DependencyType.Single 0 2], []⟩ ∧
    is_valid_formula c5Step1 ("B1+1".data) = true ∧
    (has_circular_dependency c5Step1 0 0 ("B1+1".data)).2 = false ∧
    graphLookup c5Step2.dependency_graph (0, 1) =
      some ⟨[], [DependencyType.Single 0 0]⟩ ∧
    graphLookup c5Step2.dependency_graph (0, 2) = some ⟨[], []⟩ := by decide

theorem removeOldStep_pres (row col : Int) (t : Coord) (g : DepGraph)
    (dep : DependencyType)
    (h : ∀ e, graphLookup g t = some e →
      DependencyType.Single row col ∉ e.dependents) :
    ∀ e, graphLookup (removeOldDepStep row col g dep) t = some e →
      DependencyType.Single row col ∉ e.dependents := by
  intro e he
  cases dep with
  | Range _ _ _ _ => exact h e he
  | Single r2 c2 =>
    unfold removeOldDepStep at he
    rw [graphLookup_graphModify] at he
    by_cases ht : t = (r2, c2)
    · rw [if_pos ht] at he
      cases hg : graphLookup g (r2, c2) with
      | none => rw [hg] at he; exact absurd he (by simp)
      | some e0 =>
        rw [hg] at he
        simp only [Option.map_some'] at he
        rw [← Option.some.inj he]
        intro hmem
        have := (List.mem_filter.mp hmem).2
        simp at this
    · rw [if_neg ht] at he
      exact h e he

theorem removeOldStep_est (row col : Int) (t : Coord) (g : DepGraph) :
    ∀ e, graphLookup
        (removeOldDepStep row col g (DependencyType.Single t.1 t.2)) t =
          some e →
      DependencyType.Single row col ∉ e.dependents := by
  intro e he
  unfold removeOldDepStep at he
  rw [graphLookup_graphModify] at he
  rw [if_pos (by rfl : t = (t.1, t.2))] at he
  cases hg : graphLookup g (t.1, t.2) with
  | none => rw [hg] at he; exact absurd he (by simp)
  | some e0 =>
    rw [hg] at he
    simp only [Option.map_some'] at he
    rw [← Option.some.inj he]
    intro hmem
    have := (List.mem_filter.mp hmem).2
    simp at this

theorem removeOldFold_clears (row col : Int) (t : Coord) :
    ∀ (deps : List DependencyType) (g : DepGraph),
      DependencyType.Single t.1 t.2 ∈ deps →
      ∀ e, graphLookup (deps.foldl (removeOldDepStep row col) g) t = some e →
        DependencyType.Single row col ∉ e.dependents := by
  intro deps
  induction deps with
  | nil =>
    intro g hmem
    exact absurd hmem (List.not_mem_nil _)
  | cons d rest ih =>
    intro g hmem
    rcases List.mem_cons.mp hmem with heq | hmem2
    · cases heq
      rw [List.foldl_cons]
      refine foldl_inv_mem rest _
        (fun g2 => ∀ e, graphLookup g2 t = some e →
          DependencyType.Single row col ∉ e.dependents) ?_ _ ?_
      · intro g2 d2 _ hq
        exact removeOldStep_pres row col t g2 d2 hq
      · exact removeOldStep_est row col t g
    · rw [List.foldl_cons]
      exact ih (removeOldDepStep row col g d) hmem2

theorem addNewFold_lookup_ne (row col : Int) (t : Coord) :
    ∀ (nd : List DependencyType) (g : DepGraph),
      DependencyType.Single t.1 t.2 ∉ nd →
      graphLookup (nd.foldl (addNewDepStep row col) g) t = graphLookup g t := by
  intro nd
  induction nd with
  | nil => intro g _; rfl
  | cons d rest ih =>
    intro g hnot
    have hnot2 : DependencyType.Single t.1 t.2 ∉ rest :=
      fun hh => hnot (List.mem_cons_of_mem _ hh)
    rw [List.foldl_cons, ih _ hnot2]
    cases d with
    | Range _ _ _ _ => rfl
    | Single r2 c2 =>
      have hne : ¬ t = (r2, c2) := by
        intro ht
        apply hnot
        rw [show DependencyType.Single t.1 t.2 = DependencyType.Single r2 c2 by
          rw [ht]]
        exact List.mem_cons_self _ _
      unfold addNewDepStep
      rw [graphLookup_graphModifyOrInsert, if_neg hne]

theorem updateCellGraph_oldTarget (g0 : DepGraph) (row col : Int)
    (nd : List DependencyType) (t : Coord) (ht : ¬ t = (row, col))
    (od : CellDependencies) (hod : graphLookup g0 (row, col) = some od)
    (hmem : DependencyType.Single t.1 t.2 ∈ od.dependencies)
    (hnot : DependencyType.Single t.1 t.2 ∉ nd) :
    ∀ e, graphLookup (updateCellGraph g0 row col nd) t = some e →
      DependencyType.Single row col ∉ e.dependents := by
  intro e he
  unfold updateCellGraph at he
  rw [hod] at he
  -- reduce the final if/insert layers down to the g2 fold
  set g2 := od.dependencies.foldl (removeOldDepStep row col)
    (graphRemove g0 (row, col)) with hg2
  set g3 := nd.foldl (addNewDepStep row col) g2 with hg3
  set g4 := graphInsert g3 (row, col) ⟨nd, od.dependents⟩ with hg4
  have hlook : graphLookup g4 t = graphLookup g2 t := by
    rw [hg4, graphLookup_graphInsert, if_neg ht, hg3]
    exact addNewFold_lookup_ne row col t nd g2 hnot
  have he2 : graphLookup g2 t = some e := by
    by_cases hcond : nd = [] ∧
        (match graphLookup g4 (row, col) with
         | some cd => cd.dependents
         | none => []) = []
    · rw [if_pos hcond] at he
      rw [graphLookup_graphRemove, if_neg ht] at he
      rw [← hlook]
      exact he
    · rw [if_neg hcond] at he
      rw [← hlook]
      exact he
  exact removeOldFold_clears row col t od.dependencies _ hmem e he2

theorem updateCellGraph_selfClean (g0 : DepGraph) (row col : Int)
    (od : CellDependencies) (hod : graphLookup g0 (row, col) = some od)
    (hdeps : od.dependents = []) :
    graphLookup (updateCellGraph g0 row col []) (row, col) = none := by
  unfold updateCellGraph
  rw [hod]
  set g2 := od.dependencies.foldl (removeOldDepStep row col)
    (graphRemove g0 (row, col)) with hg2
  set g3 := List.foldl (addNewDepStep row col) g2 ([] : List DependencyType)
    with hg3
  set g4 := graphInsert g3 (row, col)
    ⟨([] : List DependencyType), od.dependents⟩ with hg4
  have hlook4 : graphLookup g4 (row, col) = some ⟨[], od.dependents⟩ := by
    rw [hg4, graphLookup_graphInsert, if_pos rfl]
  have hcond : ([] : List DependencyType) = [] ∧
      (match graphLookup g4 (row, col) with
       | some cd => cd.dependents
       | none => []) = [] := by
    refine ⟨rfl, ?_⟩
    rw [hlook4]
    exact hdeps
  rw [if_pos hcond, graphLookup_graphRemove, if_pos rfl]

/-- C5 (amended): after a successful `update_cell` replacing a formula,
each old `Single` dependency target that is not referenced again by the
new formula no longer lists the updated cell among its dependents, and
the updated cell's own graph entry is removed when the new formula has
no dependencies and the preserved dependents list is empty.  (Old targets
re-referenced by the new formula are re-added, and entries of other
cells may remain with two empty lists — the counterexample shows both.) -/
theorem claim_C5 (s : Sheet) (row col : Int) (f : List Char)
    (hguard : ¬ (row < 0 ∨ row ≥ s.rows ∨ col < 0 ∨ col ≥ s.cols ∨
      is_valid_formula s f = false))
    (hnc : (has_circular_dependency s row col f).2 = false)
    (od : CellDependencies)
    (hod : graphLookup s.dependency_graph (row, col) = some od) :
    (∀ t : Coord, ¬ t = (row, col) →
      DependencyType.Single t.1 t.2 ∈ od.dependencies →
      DependencyType.Single t.1 t.2 ∉ parseDependencies s f →
      ∀ e, graphLookup (update_cell s row col f).dependency_graph t = some e →
        DependencyType.Single row col ∉ e.dependents) ∧
    (parseDependencies s f = [] → od.dependents = [] →
      graphLookup (update_cell s row col f).dependency_graph (row, col) =
        none) := by
  have hgfinal : (update_cell s row col f).dependency_graph =
      updateCellGraph
        (has_circular_dependency s row col f).1.dependency_graph row col
        (parseDependencies (has_circular_dependency s row col f).1 f) := by
    rw [update_cell_eq_main s row col f hguard hnc]
    show (recalculate_dependents (ucMainSheet s row col f)
      row col).dependency_graph = _
    exact (recalc_scalars _ row col).2.2.2.2.1
  have hndeq : parseDependencies (has_circular_dependency s row col f).1 f =
      parseDependencies s f :=
    parseDependencies_congr (hcd_fst_scalars s row col f).1
      (hcd_fst_scalars s row col f).2.1 f
  have hod2 : graphLookup
      (has_circular_dependency s row col f).1.dependency_graph (row, col) =
        some od := by
    rw [hcd_fst_graphLookup]
    exact hod
  constructor
  · intro t ht hmem hnot e he
    rw [hgfinal] at he
    exact updateCellGraph_oldTarget _ row col _ t ht od hod2 hmem
      (fun hh => hnot (hndeq ▸ hh)) e he
  · intro hp hdeps
    rw [hgfinal, hndeq.trans hp]
    exact updateCellGraph_selfClean _ row col od hod2 hdeps

theorem claim_C5_witness :
    graphLookup c5Step1.dependency_graph (0, 0) =
      some ⟨[DependencyType.Single 0 1, DependencyType.Single 0 2], []⟩ ∧
    ∀ e, graphLookup (update_cell c5Step1 0 0 ("B1+1".data)).dependency_graph
        (0, 2) = some e →
      DependencyType.Single 0 0 ∉ e.dependents :=
  ⟨by decide,
   (claim_C5 c5Step1 0 0 ("B1+1".data) (by decide) (by decide)
      ⟨[DependencyType.Single 0 1, DependencyType.Single 0 2], []⟩
      (by decide)).1
     (0, 2) (by decide) (by decide) (by decide)⟩

/-! ## Undo/redo lemmas -/

theorem undo_noop (t : Sheet) (hu : t.undo_stack = []) : undo t = (t, false) := by
  unfold undo
  by_cases he : t.extension_enabled = false
  · rw [if_pos he]
  · rw [if_neg he, hu]

theorem redo_noop (t : Sheet) (hr : t.redo_stack = []) : redo t = (t, false) := by
  unfold redo
  by_cases he : t.extension_enabled = false
  · rw [if_pos he]
  · rw [if_neg he, hr]

theorem redoF_undoF (t : Sheet) (he : t.extension_enabled = true)
    (hu : ¬ t.undo_stack = []) : redoF (undoF t) = t := by
  obtain ⟨tc, trw, tco, tf, te, tg, tu, tre, tm⟩ := t
  simp only at he hu
  subst he
  cases tu with
  | nil => exact absurd rfl hu
  | cons p rest => rfl

theorem undoF_ext (t : Sheet) :
    (undoF t).extension_enabled = t.extension_enabled := by
  unfold undoF undo
  by_cases he : t.extension_enabled = false
  · rw [if_pos he]
  · rw [if_neg he]
    cases t.undo_stack with
    | nil => rfl
    | cons p rest => rfl

theorem undoF_stack (t : Sheet) (he : t.extension_enabled = true)
    {p : SheetState} {rest : List SheetState} (hu : t.undo_stack = p :: rest) :
    (undoF t).undo_stack = rest := by
  unfold undoF undo
  rw [he, hu]
  rfl

theorem undoF_noop (t : Sheet) (hu : t.undo_stack = []) : undoF t = t := by
  unfold undoF
  rw [undo_noop t hu]

theorem redoF_noop (t : Sheet) (hr : t.redo_stack = []) : redoF t = t := by
  unfold redoF
  rw [redo_noop t hr]

theorem undoF_iter_noop (k : Nat) (t : Sheet) (hu : t.undo_stack = []) :
    undoF^[k] t = t := by
  induction k with
  | zero => rfl
  | succ k ih =>
    rw [Function.iterate_succ_apply, undoF_noop t hu]
    exact ih

theorem redoF_iter_noop (k : Nat) (t : Sheet) (hr : t.redo_stack = []) :
    redoF^[k] t = t := by
  induction k with
  | zero => rfl
  | succ k ih =>
    rw [Function.iterate_succ_apply, redoF_noop t hr]
    exact ih

theorem undoF_iter_facts (k : Nat) :
    ∀ t : Sheet, t.extension_enabled = true → k ≤ t.undo_stack.length →
      (undoF^[k] t).undo_stack.length = t.undo_stack.length - k ∧
      (undoF^[k] t).extension_enabled = true := by
  induction k with
  | zero => intro t he _; exact ⟨by simp, by simpa using he⟩
  | succ k ih =>
    intro t he hlen
    cases hu : t.undo_stack with
    | nil =>
      rw [hu] at hlen
      simp at hlen
    | cons p rest =>
      rw [Function.iterate_succ_apply]
      have h1 : (undoF t).extension_enabled = true := by
        rw [undoF_ext]; exact he
      have h2 : (undoF t).undo_stack = rest := undoF_stack t he hu
      have h3 : k ≤ (undoF t).undo_stack.length := by
        rw [h2]
        rw [hu] at hlen
        simp only [List.length_cons] at hlen
        omega
      obtain ⟨hl, hx⟩ := ih (undoF t) h1 h3
      refine ⟨?_, hx⟩
      rw [hl, h2]
      have hlen2 : t.undo_stack.length = rest.length + 1 := by
        rw [hu]; simp
      simp only [List.length_cons]
      omega

theorem redo_undo_iter (k : Nat) :
    ∀ t : Sheet, t.extension_enabled = true → k ≤ t.undo_stack.length →
      redoF^[k] (undoF^[k] t) = t := by
  induction k with
  | zero => intro t _ _; rfl
  | succ k ih =>
    intro t he hlen
    have hne : ¬ t.undo_stack = [] := by
      intro hh; rw [hh] at hlen; simp at hlen
    have h1 : (undoF t).extension_enabled = true := by
      rw [undoF_ext]; exact he
    have h2 : k ≤ (undoF t).undo_stack.length := by
      cases hu : t.undo_stack with
      | nil => exact absurd hu hne
      | cons p rest =>
        rw [undoF_stack t he hu]
        rw [hu] at hlen
        simp only [List.length_cons] at hlen
        omega
    rw [show undoF^[k + 1] t = undoF^[k] (undoF t) from
      Function.iterate_succ_apply undoF k t]
    rw [show redoF^[k + 1] (undoF^[k] (undoF t)) =
        redoF (redoF^[k] (undoF^[k] (undoF t))) from
      Function.iterate_succ_apply' redoF k _]
    rw [ih (undoF t) h1 h2]
    exact redoF_undoF t he hne

theorem undo_redo_roundtrip (t : Sheet) (n : Nat)
    (he : t.extension_enabled = true) (hr : t.redo_stack = []) :
    redoF^[n] (undoF^[n] t) = t := by
  rcases Nat.le_total n t.undo_stack.length with hle | hge
  · exact redo_undo_iter n t he hle
  · set L := t.undo_stack.length with hL
    have hns : n = (n - L) + L := by omega
    have hx0 : (undoF^[L] t).undo_stack = [] := by
      have hfacts := (undoF_iter_facts L t he (by omega)).1
      refine List.length_eq_zero.mp ?_
      rw [hfacts]
      omega
    calc redoF^[n] (undoF^[n] t)
        = redoF^[n] (undoF^[n - L] (undoF^[L] t)) := by
          rw [← Function.iterate_add_apply undoF (n - L) L t, ← hns]
      _ = redoF^[n] (undoF^[L] t) := by
          rw [undoF_iter_noop (n - L) _ hx0]
      _ = redoF^[n - L] (redoF^[L] (undoF^[L] t)) := by
          rw [← Function.iterate_add_apply redoF (n - L) L _, ← hns]
      _ = redoF^[n - L] t := by
          rw [redo_undo_iter L t he (by omega)]
      _ = t := redoF_iter_noop (n - L) t hr

theorem save_state_ext (s : Sheet) :
    (save_state s).extension_enabled = s.extension_enabled := by
  unfold save_state
  by_cases he : s.extension_enabled = false
  · rw [if_pos he]
  · rw [if_neg he]

theorem editStep_ext (s : Sheet) (e : SheetState) :
    (editStep s e).extension_enabled = s.extension_enabled := by
  unfold editStep applyEdit
  exact save_state_ext s

theorem foldl_editStep_ext (edits : List SheetState) :
    ∀ s : Sheet, (List.foldl editStep s edits).extension_enabled =
      s.extension_enabled := by
  induction edits with
  | nil => intro s; rfl
  | cons e rest ih =>
    intro s
    rw [List.foldl_cons, ih (editStep s e), editStep_ext]

theorem editStep_redo (s : Sheet) (e : SheetState)
    (he : s.extension_enabled = true) : (editStep s e).redo_stack = [] := by
  unfold editStep applyEdit save_state
  rw [he]
  rfl

theorem foldl_editStep_redo (edits : List SheetState) :
    ∀ s : Sheet, s.extension_enabled = true → ¬ edits = [] →
      (List.foldl editStep s edits).redo_stack = [] := by
  induction edits with
  | nil => intro s _ hne; exact absurd rfl hne
  | cons e rest ih =>
    intro s he _
    rw [List.foldl_cons]
    by_cases hr : rest = []
    · rw [hr, List.foldl_nil]
      exact editStep_redo s e he
    · exact ih (editStep s e) (by rw [editStep_ext]; exact he) hr

/-- C7: with extensions enabled, `undo` on an empty undo stack returns
failure and leaves the sheet unchanged; and after any sequence of `N`
edits each preceded by `save_state`, performing `undo` `N` times and then
`redo` `N` times restores exactly the post-edit cells and dependency
graph (even past the bounded history: surplus undos and redos are
no-ops). -/
theorem claim_C7 (t s0 : Sheet) (edits : List SheetState)
    (ht : t.extension_enabled = true) (htu : t.undo_stack = [])
    (hs0 : s0.extension_enabled = true) :
    undo t = (t, false) ∧
    (redoF^[edits.length]
        (undoF^[edits.length] (List.foldl editStep s0 edits))).cells =
      (List.foldl editStep s0 edits).cells ∧
    (redoF^[edits.length]
        (undoF^[edits.length]
          (List.foldl editStep s0 edits))).dependency_graph =
      (List.foldl editStep s0 edits).dependency_graph := by
  refine ⟨undo_noop t htu, ?_⟩
  cases hed : edits with
  | nil => exact ⟨rfl, rfl⟩
  | cons e rest =>
    have hext : (List.foldl editStep s0 edits).extension_enabled = true := by
      rw [foldl_editStep_ext]; exact hs0
    have hredo : (List.foldl editStep s0 edits).redo_stack = [] := by
      refine foldl_editStep_redo edits s0 hs0 ?_
      rw [hed]; simp
    have hrt := undo_redo_roundtrip (List.foldl editStep s0 edits)
      edits.length hext hredo
    rw [← hed, hrt]
    exact ⟨rfl, rfl⟩

theorem claim_C7_witness :
    undo (create_sheet 1 1 true) = (create_sheet 1 1 true, false) ∧
    (redoF^[1] (undoF^[1] (List.foldl editStep (create_sheet 1 1 true)
        [⟨[[{ Cell.new with value := 3 }]], []⟩]))).cells =
      (List.foldl editStep (create_sheet 1 1 true)
        [⟨[[{ Cell.new with value := 3 }]], []⟩]).cells :=
  ⟨(claim_C7 (create_sheet 1 1 true) (create_sheet 1 1 true)
      [⟨[[{ Cell.new with value := 3 }]], []⟩]
      (by decide) (by decide) (by decide)).1,
   (claim_C7 (create_sheet 1 1 true) (create_sheet 1 1 true)
      [⟨[[{ Cell.new with value := 3 }]], []⟩]
      (by decide) (by decide) (by decide)).2.1⟩

theorem rangeCoords_single (r c : Int) : rangeCoords r c r c = [(r, c)] := by
  unfold rangeCoords
  have h1 : (r - r + 1).toNat = 1 := by omega
  have h2 : (c - c + 1).toNat = 1 := by omega
  rw [h1, h2]
  show [(r + ((0 : Nat) : Int), c + ((0 : Nat) : Int))] = [(r, c)]
  norm_num

theorem calc_stdev_single (s : Sheet) (str : List Char) (r c : Int)
    (hp : parse_range s str = some (r, c, r, c))
    (herr : (getCell s r c).is_error = false) :
    calculate_range_function s nSTDEV str = some (fOfInt 0) := by
  unfold calculate_range_function
  rw [hp]
  dsimp only
  rw [rangeCoords_single r c]
  have hup : upperChars nSTDEV = nSTDEV := by decide
  simp only [hup, List.foldl_cons, List.foldl_nil, herr, Bool.false_eq_true,
    if_false, if_pos rfl]
  have hsum : ¬ (nSTDEV = nSUM) := by decide
  have havg : ¬ (nSTDEV = nAVG) := by decide
  have hmin : ¬ (nSTDEV = nMIN) := by decide
  have hmax : ¬ (nSTDEV = nMAX) := by decide
  simp only [if_neg hsum, if_neg havg, if_neg hmin, if_neg hmax, if_pos rfl]
  norm_num

/-- C8: STDEV over a range covering exactly one cell returns 0 without error
rather than dividing by zero (shown both on the concrete fixture and for an
arbitrary sheet and single-cell range), and STDEV over a range holding the
values [1,2,3,4] returns 1 (the rounded population standard deviation),
computed via Welford's single-pass update. -/
theorem claim_C8 :
    evaluate_expression c8Sheet (("STDEV(A1:B2)").data) 0 0 = (1, false) ∧
    evaluate_expression c8Sheet (("STDEV(A1:A1)").data) 0 0 = (0, false) ∧
    ∀ (s : Sheet) (str : List Char) (r c : Int),
      parse_range s str = some (r, c, r, c) →
      (getCell s r c).is_error = false →
      calculate_range_function s nSTDEV str = some (fOfInt 0) := by
  refine ⟨by decide, by decide, ?_⟩
  exact fun s str r c hp herr => calc_stdev_single s str r c hp herr

theorem claim_C8_witness :
    calculate_range_function c8Sheet nSTDEV (("A1:A1").data) = some (fOfInt 0) :=
  claim_C8.2.2 c8Sheet (("A1:A1").data) 0 0 (by decide) (by decide)

theorem splitOnPred_ne_nil (p : Char → Bool) (s : List Char) :
    ¬ splitOnPred p s = [] := by
  induction s with
  | nil => simp [splitOnPred]
  | cons c rest ih =>
    simp only [splitOnPred]
    by_cases h : p c = true
    · simp [h]
    · simp only [h, if_false]
      cases hsp : splitOnPred p rest with
      | nil => simp
      | cons t ts => simp

theorem splitOnPred_append_noP (p : Char → Bool) (xs ys t : List Char)
    (ts : List (List Char)) (hxs : ∀ c ∈ xs, p c = false)
    (hys : splitOnPred p ys = t :: ts) :
    splitOnPred p (xs ++ ys) = (xs ++ t) :: ts := by
  induction xs with
  | nil => simpa using hys
  | cons c xs ih =>
    have hc : p c = false := hxs c (by simp)
    have ih2 := ih (fun d hd => hxs d (by simp [hd]))
    simp only [List.cons_append, splitOnPred, hc, Bool.false_eq_true, if_false,
      List.append_eq]
    rw [ih2]

theorem splitOnPred_noP (p : Char → Bool) (s : List Char)
    (h : ∀ c ∈ s, p c = false) : splitOnPred p s = [s] := by
  have := splitOnPred_append_noP p s [] [] [] h rfl
  simpa using this

theorem splitWS_renderToks (t0 : List Char) (ops : List (Char × List Char))
    (hne : ¬ t0 = []) (h0 : ∀ c ∈ t0, c.isWhitespace = false)
    (hops : ∀ pr ∈ ops, pr.1.isWhitespace = false ∧ ¬ pr.2 = [] ∧
      ∀ c ∈ pr.2, c.isWhitespace = false) :
    splitWS (renderToks t0 ops) =
      t0 :: ops.bind (fun pr => [[pr.1], pr.2]) := by
  induction ops generalizing t0 with
  | nil =>
    simp [renderToks, splitWS, splitOnPred_noP _ _ h0, hne]
  | cons hd rest ih =>
    obtain ⟨op, b⟩ := hd
    have hop : op.isWhitespace = false := (hops (op, b) (by simp)).1
    have hbne : ¬ b = [] := (hops (op, b) (by simp)).2.1
    have hb : ∀ c ∈ b, c.isWhitespace = false := (hops (op, b) (by simp)).2.2
    have ihb := ih b hbne hb (fun pr hpr => hops pr (by simp [hpr]))
    show splitWS (t0 ++ ' ' :: op :: ' ' :: renderToks b rest) = _
    cases hR : splitOnPred Char.isWhitespace (renderToks b rest) with
    | nil => exact absurd hR (splitOnPred_ne_nil _ _)
    | cons u us =>
      have hsp : Char.isWhitespace ' ' = true := by decide
      have h2 : splitOnPred Char.isWhitespace (' ' :: op :: ' ' ::
          renderToks b rest) = [] :: [op] :: u :: us := by
        simp [splitOnPred, hR, hsp, hop]
      have h3 := splitOnPred_append_noP Char.isWhitespace t0
        (' ' :: op :: ' ' :: renderToks b rest) [] ([op] :: u :: us) h0 h2
      have ihb2 : (u :: us).filter (fun t => ¬ t = []) =
          b :: rest.bind (fun pr => [[pr.1], pr.2]) := by
        unfold splitWS at ihb
        rw [hR] at ihb
        exact ihb
      have hfil : ∀ (l : List (List Char)) (x : List Char), ¬ x = [] →
          (x :: l).filter (fun t => ¬ t = []) =
            x :: l.filter (fun t => ¬ t = []) := by
        intro l x hx
        simp [hx]
      unfold splitWS
      rw [h3]
      simp only [List.append_nil]
      rw [hfil _ _ hne, hfil _ _ (by simp : ¬ ([op] : List Char) = [])]
      rw [ihb2]
      simp

theorem arithLoop_spec (ops : List (Char × List Char)) (acc : Int)
    (hop : ∀ pr ∈ ops, pr.1 ∈ (['+', '-', '*', '/'] : List Char)) :
    arithLoop acc (ops.bind fun pr => [[pr.1], pr.2]) =
      specLeftToRight acc (ops.map fun pr => (pr.1, parseI32Or0 pr.2)) := by
  induction ops generalizing acc with
  | nil => simp [arithLoop, specLeftToRight]
  | cons hd rest ih =>
    obtain ⟨op, b⟩ := hd
    have hmem := hop (op, b) (by simp)
    have ihr := fun a => ih a (fun pr hpr => hop pr (by simp [hpr]))
    simp only [List.cons_bind, List.map_cons, List.cons_append,
      List.singleton_append]
    simp only [List.mem_cons, List.not_mem_nil, or_false] at hmem
    rcases hmem with h | h | h | h
    all_goals subst h
    · simp only [arithLoop, specLeftToRight, if_pos rfl]
      exact ihr _
    · simp only [arithLoop, specLeftToRight]
      norm_num
      exact ihr _
    · simp only [arithLoop, specLeftToRight]
      norm_num
      exact ihr _
    · simp only [arithLoop, specLeftToRight]
      norm_num
      by_cases hz : parseI32Or0 b = 0
      · simp [hz]
      · simp only [hz, if_false]
        exact ihr _

/-- C6: arithmetic expressions are evaluated strictly left to right with no
operator precedence: evaluating `2+3*4` returns value 20 with no error flag
(not 14), and for every whitespace-separated sequence of operand tokens
joined by `+ - * /` operators, `evaluate_arithmetic` computes the
spec-side left-to-right fold over the parsed operands. -/
theorem claim_C6 :
    evaluate_expression (create_sheet 2 2 false) (("2+3*4").data) 0 0 =
      (20, false) ∧
    ¬ evaluate_expression (create_sheet 2 2 false) (("2+3*4").data) 0 0 =
      (14, false) ∧
    ∀ (t0 : List Char) (ops : List (Char × List Char)),
      ¬ t0 = [] →
      (∀ c ∈ t0, c.isWhitespace = false) →
      (∀ pr ∈ ops, pr.1 ∈ (['+', '-', '*', '/'] : List Char) ∧
        ¬ pr.2 = [] ∧ ∀ c ∈ pr.2, c.isWhitespace = false) →
      evaluate_arithmetic (renderToks t0 ops) =
        specLeftToRight (parseI32Or0 t0)
          (ops.map fun pr => (pr.1, parseI32Or0 pr.2)) := by
  refine ⟨by decide, by decide, ?_⟩
  intro t0 ops hne h0 hops
  have hws : ∀ pr ∈ ops, pr.1.isWhitespace = false ∧ ¬ pr.2 = [] ∧
      ∀ c ∈ pr.2, c.isWhitespace = false := by
    intro pr hpr
    obtain ⟨hmem, hb, hc⟩ := hops pr hpr
    refine ⟨?_, hb, hc⟩
    simp only [List.mem_cons, List.not_mem_nil, or_false] at hmem
    rcases hmem with h | h | h | h
    all_goals rw [h]
    all_goals decide
  have hsplit := splitWS_renderToks t0 ops hne h0 hws
  unfold evaluate_arithmetic
  rw [hsplit]
  cases ops with
  | nil => simp [specLeftToRight]
  | cons hd rest =>
    obtain ⟨op, b⟩ := hd
    simp only [List.cons_bind, List.cons_append, List.singleton_append]
    have := arithLoop_spec ((op, b) :: rest) (parseI32Or0 t0)
      (fun pr hpr => (hops pr hpr).1)
    simp only [List.cons_bind, List.cons_append, List.singleton_append] at this
    exact this

theorem claim_C6_witness :
    evaluate_arithmetic
        (renderToks (("2").data) [('+', ("3").data), ('*', ("4").data)]) =
      specLeftToRight (parseI32Or0 (("2").data))
        ([('+', ("3").data), ('*', ("4").data)].map
          fun pr => (pr.1, parseI32Or0 pr.2)) :=
  claim_C6.2.2 (("2").data) [('+', ("3").data), ('*', ("4").data)]
    (by decide) (by decide) (by decide)

end Spreadsheet










